import Mathlib

/-!
# go-pi-ai: the streaming accumulator of the OpenAI provider

A shallow embedding of `internal/provider/openai/openai.go` (`Provider.getClient`,
`Provider.Stream`, `buildAssistantMessage`, `stopReasonFromOpenAI`) and of the
parts of `types/types.go` it uses; of the older `OpenAIProvider.Stream` of `pkg/provider/openai/openai.go`
with the events of `pkg/types/types.go`; and of `Registry.Register` and
`Registry.Get` of `provider/registry.go`.

Modelling decisions.

* The producer goroutine of `Provider.Stream` is embedded as the list of channel
  operations it performs, in program order (`ChanOp`): every send on `Events`,
  `Result` and `Err`, and every `close`.  A send is recorded when the producer
  executes it; whether a consumer is there to take it is outside this model.
* The OpenAI SDK is an external collaborator.  What the code reads from it is
  input data: the chunks the stream yields and its terminal `Err()`
  (`ChunkStream`), and for each chunk the answers of the SDK accumulator to
  `AddChunk`, `JustFinishedContent` and `JustFinishedToolCall` (fields of
  `Chunk`).  `encoding/json.Unmarshal` is the parameter `unmarshal`
  (`none` means it returned an error); `time.Now()` is the parameter `now`;
  `ctx.Err()` read after the loop is the parameter `ctxErr`.
* The channels are unbuffered.  Where a claim is about a consumer, the consumer
  is a small state machine and the producer's list of operations is walked
  against it: a send completes only at a matching receive, a close always
  completes (`completesSequential`, `completesConcurrent`).
* Go maps are functions into `Option` (`Registry.models`).
* Go `int` is `Int` here: `currentContentIndex` grows by at most one per tool
  call delta, so the 64-bit bound is out of reach.
-/

namespace Types

/-- Go `map[string]any` as filled by `encoding/json`: the keys with their values.
The streaming code never looks inside a value, so a value is kept as text. -/
abbrev Arguments := List (String × String)

/-- Go `error` values the code builds or passes on: `errors.New(text)` and
`fmt.Errorf(text)` are `msg`, `fmt.Errorf(text + ": %w", inner)` is `wrap`,
`fmt.Errorf("%w: " + text, inner)` is `wrapHead`. -/
inductive GoError where
  | msg (text : String)
  | wrap (text : String) (inner : GoError)
  | wrapHead (inner : GoError) (text : String)
  deriving DecidableEq, Repr

/-- `errors.Is(err, target)`: whether `err` or an error it wraps is `target`. -/
def GoError.Is (err target : GoError) : Bool :=
  err == target ||
    match err with
    | .msg _ => false
    | .wrap _ inner => inner.Is target
    | .wrapHead inner _ => inner.Is target

/-- `types.ErrProviderNotFound`. -/
def ErrProviderNotFound : GoError := .msg "provider not found"

/-- `types.ErrModelNotFound`. -/
def ErrModelNotFound : GoError := .msg "model not found"

/-- `types.ErrConfigInvalid`. -/
def ErrConfigInvalid : GoError := .msg "invalid configuration"

/-- `types.ModelProvider`, a Go string type. -/
abbrev ModelProvider := String

/-- `types.StopReason`, a Go string type; its zero value is the empty string. -/
abbrev StopReason := String

def StopReasonStop : StopReason := "stop"
def StopReasonLength : StopReason := "length"
def StopReasonToolUse : StopReason := "tool_use"
def StopReasonAborted : StopReason := "aborted"
def StopReasonError : StopReason := "error"
def StopReasonUnknown : StopReason := "unknown"

/-- `types.ToolCall`. -/
structure ToolCall where
  ID : String
  Name : String
  Arguments : Arguments
  deriving DecidableEq, Repr

/-- `types.Content`: the interface with its three implementations. -/
inductive Content where
  | TextContent (Text : String)
  | ImageContent (Data : String) (MimeType : String)
  | ToolCall (tc : ToolCall)
  deriving DecidableEq, Repr

/-- `types.AssistantMessage`. -/
structure AssistantMessage where
  Contents : List Content
  Timestamp : Nat
  Provider : ModelProvider
  ErrorMessage : Option String
  StopReason : StopReason
  deriving DecidableEq, Repr

/-- `types.AssistantMessageEvent`: the interface with its implementations. -/
inductive AssistantMessageEvent where
  | EventStart
  | EventTextStart (ContentIndex : Int) (Partial : AssistantMessage)
  | EventTextDelta (ContentIndex : Int) (Delta : String) (Partial : AssistantMessage)
  | EventTextEnd (ContentIndex : Int) (Content : String) (Partial : AssistantMessage)
  | EventToolcallStart (ContentIndex : Int) (Partial : AssistantMessage)
  | EventToolcallDelta (ContentIndex : Int) (Delta : String) (Partial : AssistantMessage)
  | EventToolcallEnd (ContentIndex : Int) (ToolCall : ToolCall) (Partial : AssistantMessage)
  | EventDone (Reason : StopReason) (Message : AssistantMessage)
  | EventError (Reason : StopReason) (Error : AssistantMessage)
  deriving DecidableEq, Repr

/-- One operation of the producer on the three channels of
`types.AssistantMessageEventStream`. -/
inductive ChanOp where
  | sendEvents (e : AssistantMessageEvent)
  | sendResult (m : AssistantMessage)
  | sendErr (e : GoError)
  | closeEvents
  | closeResult
  | closeErr
  deriving DecidableEq, Repr

/-- `AssistantMessageEventStream.Close`: closes `Events`, `Result`, `Err`, in
that order. -/
def Close : List ChanOp := [.closeEvents, .closeResult, .closeErr]

end Types

namespace OpenAI

open Types

/-- `openai.Config`. -/
structure Config where
  URL : String
  APIKey : String
  deriving DecidableEq, Repr

/-- `option.RequestOption` values the code passes to `openaiSDK.NewClient`. -/
inductive RequestOption where
  | WithAPIKey (key : String)
  | WithBaseURL (url : String)
  deriving DecidableEq, Repr

/-- `openaiSDK.Client`, as far as this code determines it: the options it was
created with. -/
structure Client where
  opts : List RequestOption
  deriving DecidableEq, Repr

/-- `openai.Provider` (the mutex left out); `client = none` is the nil pointer. -/
structure Provider where
  config : Config
  modelID : String
  providerType : ModelProvider
  client : Option Client
  deriving DecidableEq, Repr

/-- `openai.New`. -/
def New (config : Config) (modelID : String) (providerType : ModelProvider) : Provider :=
  { config := config, modelID := modelID, providerType := providerType, client := none }

/-- `Provider.getClient`: the returned pair and the provider afterwards. -/
def Provider.getClient (p : Provider) : Except GoError Client × Provider :=
  match p.client with
  | some c => (.ok c, p)
  | none =>
    if p.config.APIKey = "" then
      (.error (.msg "API key is required"), p)
    else
      let opts := [RequestOption.WithAPIKey p.config.APIKey]
      let opts := if p.config.URL ≠ "" then opts ++ [RequestOption.WithBaseURL p.config.URL] else opts
      let client : Client := { opts := opts }
      (.ok client, { p with client := some client })

/-- `stopReasonFromOpenAI`. -/
def stopReasonFromOpenAI (reason : String) : StopReason :=
  if reason = "stop" then StopReasonStop
  else if reason = "length" then StopReasonLength
  else if reason = "tool_calls" then StopReasonToolUse
  else if reason = "content_filter" then StopReasonAborted
  else StopReasonUnknown

/-- `openaiSDK.ChatCompletionChunkChoiceDeltaToolCall`: the fields read here
(`Name` and `Arguments` are `Function.Name` and `Function.Arguments`). -/
structure ToolCallDelta where
  Index : Int
  ID : String
  Name : String
  Arguments : String
  deriving DecidableEq, Repr

/-- `openaiSDK.ChatCompletionChunkChoice`: the fields read here (`Content` and
`ToolCalls` are `Delta.Content` and `Delta.ToolCalls`). -/
structure ChunkChoice where
  FinishReason : String
  Content : String
  ToolCalls : List ToolCallDelta
  deriving DecidableEq, Repr

/-- `openaiSDK.FinishedChatCompletionToolCall`: the fields read here. -/
structure FinishedToolCall where
  ID : String
  Name : String
  Arguments : String
  deriving DecidableEq, Repr

/-- One `openaiSDK.ChatCompletionChunk` together with what the SDK accumulator
answers once this chunk is handed to it:
`AddChunk` is the result of `acc.AddChunk(chunk)`,
`JustFinishedContent` the pair returned by `acc.JustFinishedContent()`,
`JustFinishedToolCall` the pair returned by `acc.JustFinishedToolCall()`
(`none` when its boolean is false). -/
structure Chunk where
  Choices : List ChunkChoice
  AddChunk : Bool
  JustFinishedContent : String × Bool
  JustFinishedToolCall : Option FinishedToolCall
  deriving DecidableEq, Repr

/-- The value returned by `client.Chat.Completions.NewStreaming`: the chunks
`Next`/`Current` yield until `Next` returns false, and `Err()` afterwards. -/
structure ChunkStream where
  chunks : List Chunk
  Err : Option GoError
  deriving DecidableEq, Repr

/-- The local variables of the producer that live across loop iterations. -/
structure LoopState where
  output : AssistantMessage
  currentContentIndex : Int
  currentBlockType : String
  deriving DecidableEq, Repr

/-- Lines 106-109: update stop reason. -/
def updateStopReason (st : LoopState) (chunk : Chunk) : LoopState :=
  match chunk.Choices with
  | c :: _ =>
    if c.FinishReason ≠ "" then
      { st with output := { st.output with StopReason := stopReasonFromOpenAI c.FinishReason } }
    else st
  | [] => st

/-- Lines 111-122: handle finished content block. -/
def handleFinishedContent (st : LoopState) (chunk : Chunk) :
    LoopState × List AssistantMessageEvent :=
  if chunk.JustFinishedContent.2 = true ∧ chunk.JustFinishedContent.1 ≠ "" then
    ({ st with
        currentBlockType := ""
        output := { st.output with
          Contents := st.output.Contents ++ [Content.TextContent chunk.JustFinishedContent.1] } },
     [.EventTextEnd st.currentContentIndex chunk.JustFinishedContent.1 st.output])
  else (st, [])

/-- Lines 126-134: the `types.ToolCall` built from a finished tool call;
a failed `json.Unmarshal` leaves the empty map. -/
def resolveToolCall (unmarshal : String → Option Arguments) (toolCall : FinishedToolCall) :
    ToolCall :=
  let args : Arguments :=
    match unmarshal toolCall.Arguments with
    | some a => a
    | none => []
  { ID := toolCall.ID, Name := toolCall.Name, Arguments := args }

/-- Lines 124-142: handle finished tool call block. -/
def handleFinishedToolCall (unmarshal : String → Option Arguments) (st : LoopState)
    (chunk : Chunk) : LoopState × List AssistantMessageEvent :=
  match chunk.JustFinishedToolCall with
  | some toolCall =>
    let tc := resolveToolCall unmarshal toolCall
    ({ st with
        currentBlockType := ""
        output := { st.output with Contents := st.output.Contents ++ [Content.ToolCall tc] } },
     [.EventToolcallEnd st.currentContentIndex tc st.output])
  | none => (st, [])

/-- Lines 150-166: handle text delta (`content` is `delta.Content`). -/
def handleTextDelta (st : LoopState) (content : String) :
    LoopState × List AssistantMessageEvent :=
  if content ≠ "" then
    if st.currentBlockType ≠ "text" then
      let st1 := { st with
        currentContentIndex := st.currentContentIndex + 1
        currentBlockType := "text" }
      (st1, [.EventTextStart st1.currentContentIndex st1.output,
             .EventTextDelta st1.currentContentIndex content st1.output])
    else
      (st, [.EventTextDelta st.currentContentIndex content st.output])
  else (st, [])

/-- Lines 171-185: the body of the loop over `delta.ToolCalls`, for one delta. -/
def handleToolCallDelta (st : LoopState) (toolCallDelta : ToolCallDelta) :
    LoopState × List AssistantMessageEvent :=
  let r : LoopState × List AssistantMessageEvent :=
    if st.currentBlockType ≠ "toolCall" then
      let st1 := { st with
        currentContentIndex := st.currentContentIndex + 1
        currentBlockType := "toolCall" }
      (st1, [.EventToolcallStart st1.currentContentIndex st1.output])
    else (st, [])
  if toolCallDelta.Arguments ≠ "" then
    (r.1, r.2 ++ [.EventToolcallDelta r.1.currentContentIndex toolCallDelta.Arguments r.1.output])
  else r

/-- Lines 168-187: handle tool call delta, the loop over `delta.ToolCalls`. -/
def handleToolCallDeltas : LoopState → List ToolCallDelta →
    LoopState × List AssistantMessageEvent
  | st, [] => (st, [])
  | st, d :: ds =>
    let r := handleToolCallDelta st d
    let r2 := handleToolCallDeltas r.1 ds
    (r2.1, r.2 ++ r2.2)

/-- Lines 106-187: one iteration of the loop, after `AddChunk` accepted the
chunk.  The result is the state afterwards and the events sent, in order. -/
def processChunk (unmarshal : String → Option Arguments) (st : LoopState) (chunk : Chunk) :
    LoopState × List AssistantMessageEvent :=
  let st0 := updateStopReason st chunk
  let r1 := handleFinishedContent st0 chunk
  let r2 := handleFinishedToolCall unmarshal r1.1 chunk
  match chunk.Choices with
  | [] => (r2.1, r1.2 ++ r2.2)
  | c :: _ =>
    let r3 := handleTextDelta r2.1 c.Content
    let r4 := handleToolCallDeltas r3.1 c.ToolCalls
    (r4.1, r1.2 ++ r2.2 ++ r3.2 ++ r4.2)

/-- Lines 97-188: the loop `for openaiStream.Next()`.  The result is the channel
operations performed and, when the loop ran to the end of the chunks, the state
there; `none` is the `return` after `AddChunk` refused a chunk. -/
def streamLoop (unmarshal : String → Option Arguments) :
    LoopState → List Chunk → List ChanOp × Option LoopState
  | st, [] => ([], some st)
  | st, chunk :: rest =>
    if chunk.AddChunk = false then
      ([.sendErr (.msg "failed to add chunk")], none)
    else
      let r := processChunk unmarshal st chunk
      let r2 := streamLoop unmarshal r.1 rest
      (r.2.map ChanOp.sendEvents ++ r2.1, r2.2)

/-- Lines 190-206: what follows the loop. -/
def finish (st : LoopState) (streamErr ctxErr : Option GoError) : List ChanOp :=
  match streamErr with
  | some err => [.sendErr err]
  | none =>
    match ctxErr with
    | some err => [.sendErr err]
    | none =>
      [.sendEvents (.EventDone st.output.StopReason st.output), .sendResult st.output] ++ Close

/-- Lines 73-77 and 94-95: the local variables as the loop is entered
(`time.Now()` is `now`). -/
def initialState (now : Nat) (p : Provider) : LoopState :=
  { output := { Contents := [], Provider := p.providerType, Timestamp := now,
                ErrorMessage := none, StopReason := "" },
    currentContentIndex := -1, currentBlockType := "" }

/-- `Provider.Stream`: the channel operations of the producer goroutine, in
order.  `openaiStream` is what `NewStreaming` returns for this conversation,
`ctxErr` is `ctx.Err()` when the loop has ended.  (The line `fmt.Println(".")`
writes to standard output and touches no channel; it is left out.) -/
def Provider.Stream (unmarshal : String → Option Arguments) (now : Nat) (p : Provider)
    (openaiStream : ChunkStream) (ctxErr : Option GoError) : List ChanOp :=
  match p.getClient.1 with
  | .error err => [.sendErr (.wrap "failed to create client" err)]
  | .ok _ =>
    let r := streamLoop unmarshal (initialState now p) openaiStream.chunks
    match r.2 with
    | none => .sendEvents .EventStart :: r.1
    | some st1 => .sendEvents .EventStart :: (r.1 ++ finish st1 openaiStream.Err ctxErr)

/-! ### Reading a list of channel operations -/

/-- The values sent on `Events`, in order. -/
def sentEvents : List ChanOp → List AssistantMessageEvent
  | [] => []
  | .sendEvents e :: ops => e :: sentEvents ops
  | _ :: ops => sentEvents ops

/-- The values sent on `Result`, in order. -/
def sentResults : List ChanOp → List AssistantMessage
  | [] => []
  | .sendResult m :: ops => m :: sentResults ops
  | _ :: ops => sentResults ops

/-- The values sent on `Err`, in order. -/
def sentErrs : List ChanOp → List GoError
  | [] => []
  | .sendErr e :: ops => e :: sentErrs ops
  | _ :: ops => sentErrs ops

/-- Whether an event is an `EventDone`. -/
def isDone : AssistantMessageEvent → Bool
  | .EventDone _ _ => true
  | _ => false

/-- The loop body iterated over chunks that `AddChunk` all accepts: the state
after the last one and the events sent. -/
def runChunks (unmarshal : String → Option Arguments) :
    LoopState → List Chunk → LoopState × List AssistantMessageEvent
  | st, [] => (st, [])
  | st, chunk :: rest =>
    let r := processChunk unmarshal st chunk
    let r2 := runChunks unmarshal r.1 rest
    (r2.1, r.2 ++ r2.2)

/-! ### Inputs of the concrete runs -/

/-- A decoder standing in for `json.Unmarshal` in the concrete runs: it decodes
the one object that occurs there and reports an error for every other text. -/
def sampleUnmarshal (s : String) : Option Arguments :=
  if s = "\x7b\"location\":\"Tokyo\"\x7d" then some [("location", "\"Tokyo\"")] else none

/-- A provider with an API key and no client yet. -/
def sampleProvider : Provider := New { URL := "", APIKey := "sk-test" } "gpt-4o" "openai"

/-- A chunk whose one choice carries the text delta `s`; the accumulator
reports nothing as finished. -/
def textChunk (s : String) : Chunk :=
  { Choices := [{ FinishReason := "", Content := s, ToolCalls := [] }],
    AddChunk := true, JustFinishedContent := ("", false), JustFinishedToolCall := none }

/-- A chunk whose one choice carries the finish reason `reason` and no delta,
with the accumulator's answers `content` and `toolCall` for it. -/
def finishChunk (reason : String) (content : String × Bool)
    (toolCall : Option FinishedToolCall) : Chunk :=
  { Choices := [{ FinishReason := reason, Content := "", ToolCalls := [] }],
    AddChunk := true, JustFinishedContent := content, JustFinishedToolCall := toolCall }

/-- The client `getClient` creates for `sampleProvider`. -/
def sampleClient : Client := { opts := [.WithAPIKey "sk-test"] }

/-- Two text deltas, then the finish reason with the text reported as finished;
the stream ends without error. -/
def helloStream : ChunkStream :=
  { chunks := [textChunk "Hello, ", textChunk "world",
               finishChunk "stop" ("Hello, world", true) none],
    Err := none }

/-- One text delta, after which the stream fails with a transport error. -/
def brokenStream : ChunkStream :=
  { chunks := [textChunk "Hi"], Err := some (.msg "unexpected EOF") }

/-- One text delta, after which the stream yields nothing more and reports no
error of its own. -/
def shortStream : ChunkStream :=
  { chunks := [textChunk "Hi"], Err := none }

/-- `context.Canceled`. -/
def ctxCanceled : GoError := .msg "context canceled"

/-! ### Reading a list of events -/

/-- The content item an End event carries: `TextContent` with the text of an
`EventTextEnd`, the `ToolCall` of an `EventToolcallEnd`. -/
def endItem : AssistantMessageEvent → Option Content
  | .EventTextEnd _ content _ => some (.TextContent content)
  | .EventToolcallEnd _ toolCall _ => some (.ToolCall toolCall)
  | _ => none

/-- The content items of the End events of a list, in order. -/
def endItems (evs : List AssistantMessageEvent) : List Content :=
  evs.filterMap endItem

/-- A tool call reported as finished whose argument text is cut off. -/
def truncatedToolCall : FinishedToolCall :=
  { ID := "t1", Name := "getWeather", Arguments := "\x7b\"loc" }

/-- A chunk whose one choice carries one tool call delta and no text; the
accumulator reports nothing as finished. -/
def toolChunk (id name arguments : String) : Chunk :=
  { Choices := [{ FinishReason := "", Content := "",
                  ToolCalls := [{ Index := 0, ID := id, Name := name, Arguments := arguments }] }],
    AddChunk := true, JustFinishedContent := ("", false), JustFinishedToolCall := none }

/-- A chunk without choices (the usage chunk that ends a stream). -/
def usageChunk : Chunk :=
  { Choices := [], AddChunk := true, JustFinishedContent := ("", false),
    JustFinishedToolCall := none }

/-- The chunk with the finish reason on which the accumulator reports
`truncatedToolCall` as finished. -/
def truncatedFinish : Chunk :=
  finishChunk "length" ("", false) (some truncatedToolCall)

/-- The loop state after the one tool call delta that precedes
`truncatedFinish`. -/
def afterToolDelta : LoopState :=
  (processChunk sampleUnmarshal (initialState 0 sampleProvider)
    (toolChunk "t1" "getWeather" "\x7b\"loc")).1

/-- Whether an event opens a block (`EventTextStart` or `EventToolcallStart`). -/
def isStart : AssistantMessageEvent → Bool
  | .EventTextStart _ _ => true
  | .EventToolcallStart _ _ => true
  | _ => false

/-- Whether an event is an `EventTextEnd`. -/
def isTextEnd : AssistantMessageEvent → Bool
  | .EventTextEnd _ _ _ => true
  | _ => false

/-- Whether an event is an `EventToolcallStart`. -/
def isToolcallStart : AssistantMessageEvent → Bool
  | .EventToolcallStart _ _ => true
  | _ => false

/-- Whether an event is an `EventToolcallEnd`. -/
def isToolcallEnd : AssistantMessageEvent → Bool
  | .EventToolcallEnd _ _ _ => true
  | _ => false

/-- The `ContentIndex` of an End event. -/
def endIndex : AssistantMessageEvent → Option Int
  | .EventTextEnd i _ _ => some i
  | .EventToolcallEnd i _ _ => some i
  | _ => none

/-- The `ContentIndex` of a Start event. -/
def startIndex : AssistantMessageEvent → Option Int
  | .EventTextStart i _ => some i
  | .EventToolcallStart i _ => some i
  | _ => none

/-- The `ContentIndex` values of the End events of a list, in order. -/
def endIndices (evs : List AssistantMessageEvent) : List Int :=
  evs.filterMap endIndex

/-- The `ContentIndex` of the last Start event (of either type) in a list, `i`
when the list has none. -/
def lastStartIndexFrom : Int → List AssistantMessageEvent → Int
  | i, [] => i
  | i, e :: es =>
    match startIndex e with
    | some k => lastStartIndexFrom k es
    | none => lastStartIndexFrom i es

/-- The `ContentIndex` of the last Start event in a list, `-1` when it has
none. -/
def lastStartIndex (evs : List AssistantMessageEvent) : Int :=
  lastStartIndexFrom (-1) evs

/-- The indices in a list of events are those of a counter that stands at `i`
before the list: a Start event raises the counter by one and carries the new
value; a Delta or End event carries the value the counter has. -/
def indexedFrom : Int → List AssistantMessageEvent → Prop
  | _, [] => True
  | i, .EventTextStart k _ :: es => k = i + 1 ∧ indexedFrom (i + 1) es
  | i, .EventToolcallStart k _ :: es => k = i + 1 ∧ indexedFrom (i + 1) es
  | i, .EventTextDelta k _ _ :: es => k = i ∧ indexedFrom i es
  | i, .EventToolcallDelta k _ _ :: es => k = i ∧ indexedFrom i es
  | i, .EventTextEnd k _ _ :: es => k = i ∧ indexedFrom i es
  | i, .EventToolcallEnd k _ _ :: es => k = i ∧ indexedFrom i es
  | i, .EventStart :: es => indexedFrom i es
  | i, .EventDone _ _ :: es => indexedFrom i es
  | i, .EventError _ _ :: es => indexedFrom i es

/-- Whether the accumulator reports non-empty finished text for a chunk (the
condition of line 112). -/
def reportsText (ch : Chunk) : Bool :=
  ch.JustFinishedContent.2 && ch.JustFinishedContent.1 != ""

/-- Whether the accumulator reports a finished tool call for a chunk (the
condition of line 125). -/
def reportsToolCall (ch : Chunk) : Bool :=
  ch.JustFinishedToolCall.isSome

/-- One chunk that carries a text delta and a tool call delta together, then
the finish reason, on which the accumulator reports the text as finished (its
state for the first chunk was "content"); the stream ends without error. -/
def mixedStream : ChunkStream :=
  { chunks :=
      [{ Choices := [{ FinishReason := "", Content := "A",
                       ToolCalls := [{ Index := 0, ID := "t1", Name := "getWeather",
                                       Arguments := "\x7b\x7d" }] }],
         AddChunk := true, JustFinishedContent := ("", false), JustFinishedToolCall := none },
       finishChunk "stop" ("A", true) none],
    Err := none }

/-- Strings put one after the other. -/
def joinText : List String → String
  | [] => ""
  | s :: ss => s ++ joinText ss

/-- The `Delta` of an `EventTextDelta`. -/
def textDelta : AssistantMessageEvent → Option String
  | .EventTextDelta _ delta _ => some delta
  | _ => none

/-- The `Delta` fields of the `EventTextDelta` events of a list, in order. -/
def textDeltas (evs : List AssistantMessageEvent) : List String :=
  evs.filterMap textDelta

/-- The `Delta` fields of the `EventTextDelta` events with `ContentIndex` `i`,
in order. -/
def textDeltasAt (i : Int) (evs : List AssistantMessageEvent) : List String :=
  evs.filterMap fun e =>
    match e with
    | .EventTextDelta k delta _ => if k = i then some delta else none
    | _ => none

/-- The text delta the loop reads from a chunk: `Choices[0].Delta.Content`, and
nothing for a chunk without choices. -/
def chunkText (ch : Chunk) : String :=
  match ch.Choices with
  | c :: _ => c.Content
  | [] => ""

/-- Whether, along a list of chunks, the text the accumulator reports as
finished is each time the text deltas of the chunks before, put together
(`acc` being the text before the list). -/
def reportsAccumulatedText : String → List Chunk → Bool
  | _, [] => true
  | acc, ch :: rest =>
    (!ch.JustFinishedContent.2 || ch.JustFinishedContent.1 == acc) &&
      reportsAccumulatedText (acc ++ chunkText ch) rest

/-- Every `EventTextEnd` of a list carries the text deltas sent before it, put
together after `acc`. -/
def textEndsAgree : String → List AssistantMessageEvent → Prop
  | _, [] => True
  | acc, .EventTextDelta _ delta _ :: es => textEndsAgree (acc ++ delta) es
  | acc, .EventTextEnd _ content _ :: es => content = acc ∧ textEndsAgree acc es
  | acc, .EventStart :: es => textEndsAgree acc es
  | acc, .EventTextStart _ _ :: es => textEndsAgree acc es
  | acc, .EventToolcallStart _ _ :: es => textEndsAgree acc es
  | acc, .EventToolcallDelta _ _ _ :: es => textEndsAgree acc es
  | acc, .EventToolcallEnd _ _ _ :: es => textEndsAgree acc es
  | acc, .EventDone _ _ :: es => textEndsAgree acc es
  | acc, .EventError _ _ :: es => textEndsAgree acc es

/-- Text, then a tool call, then text again, then the finish reason; the
accumulator reports each block as finished on the chunk after it, the text each
time as the whole text of the message so far. -/
def interleavedStream : ChunkStream :=
  { chunks :=
      [textChunk "A",
       { toolChunk "t1" "getWeather" "\x7b\x7d" with JustFinishedContent := ("A", true) },
       { textChunk "B" with
           JustFinishedToolCall :=
             some { ID := "t1", Name := "getWeather", Arguments := "\x7b\x7d" } },
       finishChunk "stop" ("AB", true) none],
    Err := none }

/-- Whether an event is an `EventStart`. -/
def isEventStart : AssistantMessageEvent → Bool
  | .EventStart => true
  | _ => false

/-- Whether an event is one of the six block events the loop sends
(Start, Delta and End, for text and for tool calls). -/
def isBlockEvent : AssistantMessageEvent → Bool
  | .EventTextStart _ _ => true
  | .EventTextDelta _ _ _ => true
  | .EventTextEnd _ _ _ => true
  | .EventToolcallStart _ _ => true
  | .EventToolcallDelta _ _ _ => true
  | .EventToolcallEnd _ _ _ => true
  | _ => false

/-- The finish reason the loop reads from a chunk (line 107): that of
`Choices[0]` when the chunk has a choice and the reason is not empty. -/
def chunkFinishReason (ch : Chunk) : Option String :=
  match ch.Choices with
  | c :: _ => if c.FinishReason ≠ "" then some c.FinishReason else none
  | [] => none

/-- The finish reason of the last chunk of a list that carries one. -/
def lastFinishReason : List Chunk → Option String
  | [] => none
  | ch :: rest =>
    match lastFinishReason rest with
    | some r => some r
    | none => chunkFinishReason ch

/-- The first tool call delta of the tool call scenario: id, name and the first
part of the argument text. -/
def tokyoDelta1 : Chunk := toolChunk "t1" "getWeather" "\x7b\"location\":"

/-- The second tool call delta of the tool call scenario: the rest of the
argument text. -/
def tokyoDelta2 : Chunk := toolChunk "t1" "" "\"Tokyo\"\x7d"

/-- The finish chunk of the tool call scenario, on which the accumulator
reports the tool call as finished with the whole argument text. -/
def tokyoFinish : Chunk :=
  finishChunk "tool_calls" ("", false)
    (some { ID := "t1", Name := "getWeather", Arguments := "\x7b\"location\":\"Tokyo\"\x7d" })

/-- The tool call scenario: two tool call deltas, then the finish chunk; the
stream ends without error. -/
def tokyoStream : ChunkStream :=
  { chunks := [tokyoDelta1, tokyoDelta2, tokyoFinish], Err := none }

/-! ### The steps of one loop iteration, read as events -/

/-- The `ContentIndex` and `Delta` of an `EventToolcallDelta`. -/
def toolcallDelta : AssistantMessageEvent → Option (Int × String)
  | .EventToolcallDelta i delta _ => some (i, delta)
  | _ => none

/-- The `ContentIndex` and `Delta` of the `EventToolcallDelta` events of a list,
in order. -/
def toolcallDeltas (evs : List AssistantMessageEvent) : List (Int × String) :=
  evs.filterMap toolcallDelta

/-- The tool call deltas of a list whose argument text is not empty (the
condition of line 179). -/
def withArguments (ds : List ToolCallDelta) : List ToolCallDelta :=
  ds.filter fun d => d.Arguments != ""

/-- The `EventToolcallDelta` events for a list of tool call deltas in the state
`st`: one for each delta with argument text, in order. -/
def argumentDeltaEvents (st : LoopState) (ds : List ToolCallDelta) :
    List AssistantMessageEvent :=
  (withArguments ds).map fun d =>
    .EventToolcallDelta st.currentContentIndex d.Arguments st.output

/-- The state after line 172-173: a new tool call block is open. -/
def openToolCallBlock (st : LoopState) : LoopState :=
  { st with
    currentContentIndex := st.currentContentIndex + 1
    currentBlockType := "toolCall" }

/-- Whether an event is an `EventTextEnd` or an `EventToolcallEnd`. -/
def isEnd (e : AssistantMessageEvent) : Bool :=
  isTextEnd e || isToolcallEnd e

/-- A state inside a text block with index 0 and one text delta behind it. -/
def inTextBlock : LoopState :=
  (processChunk sampleUnmarshal (initialState 0 sampleProvider) (textChunk "A")).1

/-- A chunk with one tool call delta on which the accumulator reports the text
"A" as finished. -/
def closingToolChunk : Chunk :=
  { toolChunk "t1" "getWeather" "\x7b\x7d" with JustFinishedContent := ("A", true) }

/-- Three tool call deltas of two different calls, the second without argument
text. -/
def threeDeltas : List ToolCallDelta :=
  [{ Index := 0, ID := "t1", Name := "getWeather", Arguments := "\x7b\"a\":" },
   { Index := 1, ID := "t2", Name := "getTime", Arguments := "" },
   { Index := 1, ID := "t2", Name := "", Arguments := "\x7b\x7d" }]

/-! ### `getClient` called again, and `buildAssistantMessage` -/

/-- The provider after `n` calls of `getClient`. -/
def afterGetClientCalls : Nat → Provider → Provider
  | 0, p => p
  | n + 1, p => afterGetClientCalls n p.getClient.2

/-- A provider configured with an empty API key and no client yet. -/
def emptyKeyProvider : Provider := New { URL := "", APIKey := "" } "gpt-4o" "openai"

/-- A provider configured with an empty API key in which a client is already
stored. -/
def cachedProvider : Provider := { emptyKeyProvider with client := some sampleClient }

/-- A provider with an API key and a base URL, and no client yet. -/
def nvidiaProvider : Provider :=
  New { URL := "https://integrate.api.nvidia.com/v1", APIKey := "nv-key" }
    "openai/gpt-oss-20b" "nvidia"

/-- `openaiSDK.ChatCompletionContentPartTextParam`: the field set here. -/
structure ChatCompletionContentPartTextParam where
  Text : String
  deriving DecidableEq, Repr

/-- `openaiSDK.ChatCompletionAssistantMessageParamContentArrayOfContentPartUnion`:
of its variants the code builds `OfText`. -/
inductive ChatCompletionAssistantMessageParamContentArrayOfContentPartUnion where
  | OfText (p : ChatCompletionContentPartTextParam)
  | OfRefusal (refusal : String)
  deriving DecidableEq, Repr

/-- `openaiSDK.ChatCompletionMessageFunctionToolCallFunctionParam`. -/
structure ChatCompletionMessageFunctionToolCallFunctionParam where
  Arguments : String
  Name : String
  deriving DecidableEq, Repr

/-- `openaiSDK.ChatCompletionMessageFunctionToolCallParam`. -/
structure ChatCompletionMessageFunctionToolCallParam where
  ID : String
  Function : ChatCompletionMessageFunctionToolCallFunctionParam
  deriving DecidableEq, Repr

/-- `openaiSDK.ChatCompletionMessageToolCallUnionParam`: of its variants the
code builds `OfFunction`. -/
inductive ChatCompletionMessageToolCallUnionParam where
  | OfFunction (p : ChatCompletionMessageFunctionToolCallParam)
  | OfCustom (id : String)
  deriving DecidableEq, Repr

/-- `openaiSDK.ChatCompletionAssistantMessageParamContentUnion`; the zero value
has no string and no parts. -/
structure ChatCompletionAssistantMessageParamContentUnion where
  OfString : Option String
  OfArrayOfContentParts : List ChatCompletionAssistantMessageParamContentArrayOfContentPartUnion
  deriving DecidableEq, Repr

/-- `openaiSDK.ChatCompletionAssistantMessageParam`: the fields set here.  A Go
slice is a list, a nil slice the empty list. -/
structure ChatCompletionAssistantMessageParam where
  Content : ChatCompletionAssistantMessageParamContentUnion
  ToolCalls : List ChatCompletionMessageToolCallUnionParam
  deriving DecidableEq, Repr

/-- `openaiSDK.ChatCompletionMessageParamUnion`: of its variants
`buildAssistantMessage` builds `OfAssistant`. -/
inductive ChatCompletionMessageParamUnion where
  | OfAssistant (p : ChatCompletionAssistantMessageParam)
  | OfOther (role : String)
  deriving DecidableEq, Repr

/-- Lines 296-313: one iteration of the loop over `msg.Contents`, on the pair
of `toolCalls` and `textParts`. -/
def collectContent
    (acc : List ChatCompletionMessageToolCallUnionParam ×
      List ChatCompletionAssistantMessageParamContentArrayOfContentPartUnion)
    (content : Content) :
    List ChatCompletionMessageToolCallUnionParam ×
      List ChatCompletionAssistantMessageParamContentArrayOfContentPartUnion :=
  match content with
  | .TextContent text => (acc.1, acc.2 ++ [.OfText { Text := text }])
  | .ToolCall c =>
    (acc.1 ++ [.OfFunction { ID := c.ID, Function := { Name := c.Name, Arguments := "" } }],
     acc.2)
  | .ImageContent _ _ => acc

/-- `buildAssistantMessage`. -/
def buildAssistantMessage (msg : AssistantMessage) : ChatCompletionMessageParamUnion :=
  let r := msg.Contents.foldl collectContent ([], [])
  let toolCalls := r.1
  let textParts := r.2
  let assistantMsg : ChatCompletionAssistantMessageParam :=
    { Content := { OfString := none, OfArrayOfContentParts := [] }, ToolCalls := [] }
  let assistantMsg :=
    if textParts.length > 0 then
      { assistantMsg with Content := { OfString := none, OfArrayOfContentParts := textParts } }
    else assistantMsg
  let assistantMsg :=
    if toolCalls.length > 0 then { assistantMsg with ToolCalls := toolCalls } else assistantMsg
  .OfAssistant assistantMsg

/-- The text part forwarded for a content item, if it is a `TextContent`. -/
def textPartOf : Content → Option ChatCompletionAssistantMessageParamContentArrayOfContentPartUnion
  | .TextContent text => some (.OfText { Text := text })
  | _ => none

/-- The tool call forwarded for a content item, if it is a `ToolCall`: its `ID`
and `Name`, with no argument text. -/
def toolCallParamOf : Content → Option ChatCompletionMessageToolCallUnionParam
  | .ToolCall c =>
    some (.OfFunction { ID := c.ID, Function := { Name := c.Name, Arguments := "" } })
  | _ => none

/-- A content item with the `Arguments` of a `ToolCall` emptied. -/
def eraseArguments : Content → Content
  | .ToolCall c => .ToolCall { c with Arguments := [] }
  | c => c

/-- An assistant message with text, a tool call with arguments, and text again. -/
def weatherMessage : AssistantMessage :=
  { Contents := [.TextContent "Let me check.",
                 .ToolCall { ID := "t1", Name := "getWeather",
                             Arguments := [("location", "\"Tokyo\"")] },
                 .TextContent "One moment."],
    Timestamp := 0, Provider := "openai", ErrorMessage := none, StopReason := "tool_use" }

/-- The message `weatherMessage` with other arguments in its tool call. -/
def weatherMessageOsaka : AssistantMessage :=
  { weatherMessage with
    Contents := [.TextContent "Let me check.",
                 .ToolCall { ID := "t1", Name := "getWeather",
                             Arguments := [("location", "\"Osaka\"")] },
                 .TextContent "One moment."] }

/-! ### The consumer side of the channels

The three channels are unbuffered: a send completes when a receiver takes the
value, a close always completes, and a receive on a closed channel returns at
once.  The producer's operations do not depend on the consumer, so a run of the
producer against a consumer is the walk below along the producer's list of
operations. -/

/-- Where a consumer stands that first receives from `Events` and only then
receives once from `Result`: still receiving from `Events` (`resultClosed`
tells whether `Result` was closed meanwhile), at the receive from `Result`, or
past it. -/
inductive SequentialConsumer where
  | draining (resultClosed : Bool)
  | reading
  | returned
  deriving DecidableEq, Repr

/-- Whether the producer gets through all of its operations against the
sequential consumer.  With `untilDone` the consumer leaves `Events` once it has
received an `EventDone` (or `Events` is closed); without it the consumer ranges
over `Events` until it is closed.  `false` means the producer stays blocked at
a send: on `Result` or `Err` while the consumer still receives from `Events`,
or on a channel nobody receives from any more. -/
def completesSequential (untilDone : Bool) : SequentialConsumer → List ChanOp → Bool
  | _, [] => true
  | .draining b, .sendEvents e :: ops =>
    completesSequential untilDone
      (if untilDone && isDone e then (if b then .returned else .reading) else .draining b) ops
  | .draining b, .closeEvents :: ops =>
    completesSequential untilDone (if b then .returned else .reading) ops
  | .draining _, .closeResult :: ops => completesSequential untilDone (.draining true) ops
  | .draining _, .sendResult _ :: _ => false
  | .reading, .sendResult _ :: ops => completesSequential untilDone .returned ops
  | .reading, .closeResult :: ops => completesSequential untilDone .returned ops
  | .reading, .sendEvents _ :: _ => false
  | .reading, .closeEvents :: ops => completesSequential untilDone .reading ops
  | .returned, .sendEvents _ :: _ => false
  | .returned, .sendResult _ :: _ => false
  | .returned, .closeEvents :: ops => completesSequential untilDone .returned ops
  | .returned, .closeResult :: ops => completesSequential untilDone .returned ops
  | _, .sendErr _ :: _ => false
  | c, .closeErr :: ops => completesSequential untilDone c ops

/-- Where the consumer of `cmd/example/main.go` (lines 57-76) stands up to its
receive from `Result`: one goroutine ranges over `Events` (`ranging`), while the
main goroutine receives once from `Result` (`awaiting`). -/
structure ConcurrentConsumer where
  ranging : Bool
  awaiting : Bool
  deriving DecidableEq, Repr

/-- Whether the producer gets through all of its operations against the
concurrent consumer. -/
def completesConcurrent : ConcurrentConsumer → List ChanOp → Bool
  | _, [] => true
  | c, .sendEvents _ :: ops => c.ranging && completesConcurrent c ops
  | c, .closeEvents :: ops => completesConcurrent { c with ranging := false } ops
  | c, .sendResult _ :: ops => c.awaiting && completesConcurrent { c with awaiting := false } ops
  | c, .closeResult :: ops => completesConcurrent { c with awaiting := false } ops
  | _, .sendErr _ :: _ => false
  | c, .closeErr :: ops => completesConcurrent c ops

end OpenAI

/-! ## The older implementation, `pkg/provider/openai` with `pkg/types`

`pkg/types` declares `Content`, `ToolCall`, `AssistantMessage`, `ModelProvider`
and `StopReason` with the fields of `types`; those are shared here.  Its events
differ in `EventStart`, which carries `Partial`. -/

namespace PkgTypes

open Types

/-- `pkg/types.AssistantMessageEvent`: the interface with its implementations. -/
inductive AssistantMessageEvent where
  | EventStart (Partial : AssistantMessage)
  | EventTextStart (ContentIndex : Int) (Partial : AssistantMessage)
  | EventTextDelta (ContentIndex : Int) (Delta : String) (Partial : AssistantMessage)
  | EventTextEnd (ContentIndex : Int) (Content : String) (Partial : AssistantMessage)
  | EventToolcallStart (ContentIndex : Int) (Partial : AssistantMessage)
  | EventToolcallDelta (ContentIndex : Int) (Delta : String) (Partial : AssistantMessage)
  | EventToolcallEnd (ContentIndex : Int) (ToolCall : ToolCall) (Partial : AssistantMessage)
  | EventDone (Reason : StopReason) (Message : AssistantMessage)
  | EventError (Reason : StopReason) (Error : AssistantMessage)
  deriving DecidableEq, Repr

/-- One operation of the producer on the three channels of
`pkg/types.AssistantMessageEventStream`. -/
inductive ChanOp where
  | sendEvents (e : AssistantMessageEvent)
  | sendResult (m : AssistantMessage)
  | sendErr (e : GoError)
  | closeEvents
  | closeResult
  | closeErr
  deriving DecidableEq, Repr

end PkgTypes

namespace PkgOpenAI

open PkgTypes
open Types (Arguments GoError ModelProvider StopReason ToolCall Content AssistantMessage)

/-- `openai.OpenAIProvider` of `pkg/provider/openai`; the client is created by
`NewOpenAIProvider`. -/
structure OpenAIProvider where
  client : OpenAI.Client
  ModelID : String
  ModelProvider : ModelProvider
  deriving DecidableEq, Repr

/-- `NewOpenAIProvider`. -/
def NewOpenAIProvider (config : OpenAI.Config) (modelID : String)
    (modelProvider : ModelProvider) : OpenAIProvider :=
  let opts := [OpenAI.RequestOption.WithAPIKey config.APIKey]
  let opts := if config.URL ≠ "" then opts ++ [OpenAI.RequestOption.WithBaseURL config.URL] else opts
  { client := { opts := opts }, ModelID := modelID, ModelProvider := modelProvider }

/-- Lines 76-79: update stop reason; the finish reason is taken as it is. -/
def updateStopReason (st : OpenAI.LoopState) (chunk : OpenAI.Chunk) : OpenAI.LoopState :=
  match chunk.Choices with
  | c :: _ =>
    if c.FinishReason ≠ "" then
      { st with output := { st.output with StopReason := c.FinishReason } }
    else st
  | [] => st

/-- Lines 81-92: handle finished content block. -/
def handleFinishedContent (st : OpenAI.LoopState) (chunk : OpenAI.Chunk) :
    OpenAI.LoopState × List AssistantMessageEvent :=
  if chunk.JustFinishedContent.2 = true ∧ chunk.JustFinishedContent.1 ≠ "" then
    ({ st with
        currentBlockType := ""
        output := { st.output with
          Contents := st.output.Contents ++ [Content.TextContent chunk.JustFinishedContent.1] } },
     [.EventTextEnd st.currentContentIndex chunk.JustFinishedContent.1 st.output])
  else (st, [])

/-- Lines 94-116: handle finished tool call block. -/
def handleFinishedToolCall (unmarshal : String → Option Arguments) (st : OpenAI.LoopState)
    (chunk : OpenAI.Chunk) : OpenAI.LoopState × List AssistantMessageEvent :=
  match chunk.JustFinishedToolCall with
  | some toolCall =>
    let args : Arguments :=
      match unmarshal toolCall.Arguments with
      | some a => a
      | none => []
    let tc : ToolCall := { ID := toolCall.ID, Name := toolCall.Name, Arguments := args }
    ({ st with
        currentBlockType := ""
        output := { st.output with
          Contents := st.output.Contents ++
            [Content.ToolCall { ID := toolCall.ID, Name := toolCall.Name, Arguments := args }] } },
     [.EventToolcallEnd st.currentContentIndex tc st.output])
  | none => (st, [])

/-- Lines 124-142: handle text delta. -/
def handleTextDelta (st : OpenAI.LoopState) (content : String) :
    OpenAI.LoopState × List AssistantMessageEvent :=
  if content ≠ "" then
    if st.currentBlockType ≠ "text" then
      let st1 := { st with
        currentContentIndex := st.currentContentIndex + 1
        currentBlockType := "text" }
      (st1, [.EventTextStart st1.currentContentIndex st1.output,
             .EventTextDelta st1.currentContentIndex content st1.output])
    else
      (st, [.EventTextDelta st.currentContentIndex content st.output])
  else (st, [])

/-- Lines 147-162: the body of the loop over `delta.ToolCalls`, for one delta. -/
def handleToolCallDelta (st : OpenAI.LoopState) (toolCallDelta : OpenAI.ToolCallDelta) :
    OpenAI.LoopState × List AssistantMessageEvent :=
  let r : OpenAI.LoopState × List AssistantMessageEvent :=
    if st.currentBlockType ≠ "toolCall" then
      let st1 := { st with
        currentContentIndex := st.currentContentIndex + 1
        currentBlockType := "toolCall" }
      (st1, [.EventToolcallStart st1.currentContentIndex st1.output])
    else (st, [])
  if toolCallDelta.Arguments ≠ "" then
    (r.1, r.2 ++ [.EventToolcallDelta r.1.currentContentIndex toolCallDelta.Arguments r.1.output])
  else r

/-- Lines 144-166: handle tool call delta, the loop over `delta.ToolCalls`. -/
def handleToolCallDeltas : OpenAI.LoopState → List OpenAI.ToolCallDelta →
    OpenAI.LoopState × List AssistantMessageEvent
  | st, [] => (st, [])
  | st, d :: ds =>
    let r := handleToolCallDelta st d
    let r2 := handleToolCallDeltas r.1 ds
    (r2.1, r.2 ++ r2.2)

/-- Lines 76-166: one iteration of the loop, after `AddChunk` accepted the
chunk. -/
def processChunk (unmarshal : String → Option Arguments) (st : OpenAI.LoopState)
    (chunk : OpenAI.Chunk) : OpenAI.LoopState × List AssistantMessageEvent :=
  let st0 := updateStopReason st chunk
  let r1 := handleFinishedContent st0 chunk
  let r2 := handleFinishedToolCall unmarshal r1.1 chunk
  match chunk.Choices with
  | [] => (r2.1, r1.2 ++ r2.2)
  | c :: _ =>
    let r3 := handleTextDelta r2.1 c.Content
    let r4 := handleToolCallDeltas r3.1 c.ToolCalls
    (r4.1, r1.2 ++ r2.2 ++ r3.2 ++ r4.2)

/-- Lines 68-167: the loop `for openaiStream.Next()`.  `none` is the bare
`return` of lines 71-74, taken when `AddChunk` refuses a chunk: it sends
nothing. -/
def streamLoop (unmarshal : String → Option Arguments) :
    OpenAI.LoopState → List OpenAI.Chunk → List ChanOp × Option OpenAI.LoopState
  | st, [] => ([], some st)
  | st, chunk :: rest =>
    if chunk.AddChunk = false then
      ([], none)
    else
      let r := processChunk unmarshal st chunk
      let r2 := streamLoop unmarshal r.1 rest
      (r.2.map ChanOp.sendEvents ++ r2.1, r2.2)

/-- Lines 169-188: what follows the loop. -/
def finish (st : OpenAI.LoopState) (streamErr ctxErr : Option GoError) : List ChanOp :=
  match streamErr with
  | some err => [.sendErr err]
  | none =>
    match ctxErr with
    | some err => [.sendErr err]
    | none => [.sendEvents (.EventDone st.output.StopReason st.output), .sendResult st.output]

/-- Lines 48-50: the three deferred closes, in the order they run when the
goroutine returns (last deferred first). -/
def deferredCloses : List ChanOp := [.closeErr, .closeResult, .closeEvents]

/-- Lines 52-56 and 65-66: the local variables as the loop is entered. -/
def initialState (now : Nat) (p : OpenAIProvider) : OpenAI.LoopState :=
  { output := { Contents := [], Provider := p.ModelProvider, Timestamp := now,
                ErrorMessage := none, StopReason := "" },
    currentContentIndex := -1, currentBlockType := "" }

/-- `OpenAIProvider.Stream`: the channel operations of the producer goroutine,
in order, the deferred closes last. -/
def OpenAIProvider.Stream (unmarshal : String → Option Arguments) (now : Nat)
    (p : OpenAIProvider) (openaiStream : OpenAI.ChunkStream) (ctxErr : Option GoError) :
    List ChanOp :=
  let st := initialState now p
  let r := streamLoop unmarshal st openaiStream.chunks
  match r.2 with
  | none => .sendEvents (.EventStart st.output) :: (r.1 ++ deferredCloses)
  | some st1 =>
    .sendEvents (.EventStart st.output) ::
      (r.1 ++ finish st1 openaiStream.Err ctxErr ++ deferredCloses)

/-- The values sent on `Result`, in order. -/
def sentResults : List ChanOp → List AssistantMessage
  | [] => []
  | .sendResult m :: ops => m :: sentResults ops
  | _ :: ops => sentResults ops

/-- The values sent on `Err`, in order. -/
def sentErrs : List ChanOp → List GoError
  | [] => []
  | .sendErr e :: ops => e :: sentErrs ops
  | _ :: ops => sentErrs ops

/-- A provider of the older implementation. -/
def sampleProvider : OpenAIProvider :=
  NewOpenAIProvider { URL := "", APIKey := "sk-test" } "gpt-4o" "nvidia"

/-- One text delta, then a chunk the accumulator refuses (`AddChunk` returns
false, as it does for a chunk whose id differs from that of the chunks
before). -/
def refusedStream : OpenAI.ChunkStream :=
  { chunks := [OpenAI.textChunk "Hi", { OpenAI.textChunk "there" with AddChunk := false }],
    Err := none }

end PkgOpenAI

/-! ## The registry, `provider/registry.go` -/

namespace ProviderRegistry

open Types

/-- `provider.Registry` (the mutex left out): the Go map of maps `models`; a
missing key is `none`.  `P` is the type of the values of the `Provider`
interface. -/
structure Registry (P : Type) where
  models : ModelProvider → Option (String → Option P)

/-- `NewRegistry`. -/
def NewRegistry {P : Type} : Registry P :=
  { models := fun _ => none }

/-- `Registry.register`: the returned error (always nil) and the registry
afterwards. -/
def Registry.register {P : Type} (r : Registry P) (providerType : ModelProvider)
    (modelID : String) (provider : P) : Option GoError × Registry P :=
  let models1 : ModelProvider → Option (String → Option P) :=
    match r.models providerType with
    | some _ => r.models
    | none => fun k => if k = providerType then some (fun _ => none) else r.models k
  let inner : String → Option P :=
    match models1 providerType with
    | some m => m
    | none => fun _ => none
  (none,
   { models := fun k =>
       if k = providerType then
         some (fun id => if id = modelID then some provider else inner id)
       else models1 k })

/-- `Registry.Register`. -/
def Registry.Register {P : Type} (r : Registry P) (providerType : ModelProvider)
    (modelID : String) (provider : P) : Option GoError × Registry P :=
  r.register providerType modelID provider

/-- `Registry.Get`. -/
def Registry.Get {P : Type} (r : Registry P) (providerType : ModelProvider)
    (modelID : String) : Except GoError P :=
  match r.models providerType with
  | none => .error (.wrapHead ErrProviderNotFound ("provider " ++ providerType))
  | some providers =>
    match providers modelID with
    | none => .error (.wrapHead ErrModelNotFound ("model " ++ modelID))
    | some provider => .ok provider

/-- The three arguments of one call of `Registry.Register`. -/
structure RegisterCall (P : Type) where
  providerType : ModelProvider
  modelID : String
  provider : P

/-- The registry after a list of `Register` calls on a new registry. -/
def registered {P : Type} (calls : List (RegisterCall P)) : Registry P :=
  calls.foldl (fun r c => (r.Register c.providerType c.modelID c.provider).2) NewRegistry

/-- A provider value to register. -/
def sampleValue : OpenAI.Provider :=
  OpenAI.New { URL := "", APIKey := "k1" } "gpt-4o-mini" "openai"

end ProviderRegistry

namespace OpenAI

open Types

/-! ### Basic facts -/

theorem sentEvents_append (a b : List ChanOp) :
    sentEvents (a ++ b) = sentEvents a ++ sentEvents b := by
  induction a with
  | nil => rfl
  | cons x xs ih => cases x <;> simp [sentEvents, ih]

theorem sentResults_append (a b : List ChanOp) :
    sentResults (a ++ b) = sentResults a ++ sentResults b := by
  induction a with
  | nil => rfl
  | cons x xs ih => cases x <;> simp [sentResults, ih]

theorem sentErrs_append (a b : List ChanOp) :
    sentErrs (a ++ b) = sentErrs a ++ sentErrs b := by
  induction a with
  | nil => rfl
  | cons x xs ih => cases x <;> simp [sentErrs, ih]

theorem sentEvents_map (evs : List AssistantMessageEvent) :
    sentEvents (evs.map ChanOp.sendEvents) = evs := by
  induction evs with
  | nil => rfl
  | cons x xs ih => simp [sentEvents, ih]

theorem sentResults_map (evs : List AssistantMessageEvent) :
    sentResults (evs.map ChanOp.sendEvents) = [] := by
  induction evs with
  | nil => rfl
  | cons x xs ih => simp [sentResults, ih]

theorem sentErrs_map (evs : List AssistantMessageEvent) :
    sentErrs (evs.map ChanOp.sendEvents) = [] := by
  induction evs with
  | nil => rfl
  | cons x xs ih => simp [sentErrs, ih]

/-- When `AddChunk` accepts every chunk the loop runs to the end and performs
only sends on `Events`. -/
theorem streamLoop_accepted (unmarshal : String → Option Arguments) (cs : List Chunk) :
    ∀ st : LoopState, (∀ c ∈ cs, c.AddChunk = true) →
      streamLoop unmarshal st cs =
        ((runChunks unmarshal st cs).2.map ChanOp.sendEvents,
         some (runChunks unmarshal st cs).1) := by
  induction cs with
  | nil => intro st _; rfl
  | cons c cs ih =>
    intro st h
    have hc : c.AddChunk = true := h c (List.mem_cons_self _ _)
    have hcs : ∀ x ∈ cs, x.AddChunk = true := fun x hx => h x (List.mem_cons_of_mem _ hx)
    simp [streamLoop, runChunks, hc, ih _ hcs]

/-- The loop never sends on `Result`, and sends on `Err` exactly when it
returns early. -/
theorem streamLoop_results_errs (unmarshal : String → Option Arguments) (cs : List Chunk) :
    ∀ st : LoopState,
      sentResults (streamLoop unmarshal st cs).1 = [] ∧
      (sentErrs (streamLoop unmarshal st cs).1).length =
        (if (streamLoop unmarshal st cs).2.isSome then 0 else 1) := by
  induction cs with
  | nil => intro st; simp [streamLoop, sentResults, sentErrs]
  | cons c cs ih =>
    intro st
    by_cases hc : c.AddChunk = false
    · simp [streamLoop, hc, sentResults, sentErrs]
    · have := ih (processChunk unmarshal st c).1
      simp [streamLoop, hc, sentResults_append, sentErrs_append, sentResults_map,
        sentErrs_map, this.1, this.2]

/-- The form of `Provider.Stream` once the client exists and every chunk is
accepted. -/
theorem Stream_accepted (unmarshal : String → Option Arguments) (now : Nat) (p : Provider)
    (s : ChunkStream) (ctxErr : Option GoError) (c : Client)
    (hclient : p.getClient.1 = .ok c) (hacc : ∀ ch ∈ s.chunks, ch.AddChunk = true) :
    p.Stream unmarshal now s ctxErr =
      ChanOp.sendEvents .EventStart ::
        ((runChunks unmarshal (initialState now p) s.chunks).2.map ChanOp.sendEvents ++
          finish (runChunks unmarshal (initialState now p) s.chunks).1 s.Err ctxErr) := by
  have h := streamLoop_accepted unmarshal s.chunks (initialState now p) hacc
  simp [Provider.Stream, hclient, h]

/-! ### How each run ends -/

theorem handleFinishedContent_isDone (st : LoopState) (ch : Chunk) :
    ∀ e ∈ (handleFinishedContent st ch).2, isDone e = false := by
  unfold handleFinishedContent
  split <;> simp [isDone]

theorem handleFinishedToolCall_isDone (um : String → Option Arguments) (st : LoopState)
    (ch : Chunk) : ∀ e ∈ (handleFinishedToolCall um st ch).2, isDone e = false := by
  unfold handleFinishedToolCall
  split <;> simp [isDone]

theorem handleTextDelta_isDone (st : LoopState) (c : String) :
    ∀ e ∈ (handleTextDelta st c).2, isDone e = false := by
  unfold handleTextDelta
  split
  · split <;> simp [isDone]
  · simp

theorem handleToolCallDelta_isDone (st : LoopState) (d : ToolCallDelta) :
    ∀ e ∈ (handleToolCallDelta st d).2, isDone e = false := by
  unfold handleToolCallDelta
  by_cases h1 : st.currentBlockType ≠ "toolCall" <;> by_cases h2 : d.Arguments ≠ "" <;>
    simp [h1, h2, isDone]

theorem handleToolCallDeltas_isDone (ds : List ToolCallDelta) :
    ∀ st : LoopState, ∀ e ∈ (handleToolCallDeltas st ds).2, isDone e = false := by
  induction ds with
  | nil => intro st; simp [handleToolCallDeltas]
  | cons d ds ih =>
    intro st e he
    simp only [handleToolCallDeltas, List.mem_append] at he
    rcases he with he | he
    · exact handleToolCallDelta_isDone st d e he
    · exact ih _ e he

theorem processChunk_isDone (um : String → Option Arguments) (st : LoopState) (ch : Chunk) :
    ∀ e ∈ (processChunk um st ch).2, isDone e = false := by
  intro e he
  unfold processChunk at he
  split at he
  · simp only [List.mem_append] at he
    rcases he with he | he
    · exact handleFinishedContent_isDone _ _ e he
    · exact handleFinishedToolCall_isDone _ _ _ e he
  · simp only [List.mem_append] at he
    rcases he with ((he | he) | he) | he
    · exact handleFinishedContent_isDone _ _ e he
    · exact handleFinishedToolCall_isDone _ _ _ e he
    · exact handleTextDelta_isDone _ _ e he
    · exact handleToolCallDeltas_isDone _ _ e he

theorem runChunks_isDone (um : String → Option Arguments) (cs : List Chunk) :
    ∀ st : LoopState, ∀ e ∈ (runChunks um st cs).2, isDone e = false := by
  induction cs with
  | nil => intro st; simp [runChunks]
  | cons c cs ih =>
    intro st e he
    simp only [runChunks, List.mem_append] at he
    rcases he with he | he
    · exact processChunk_isDone um st c e he
    · exact ih _ e he

theorem streamLoop_isSome (um : String → Option Arguments) (cs : List Chunk) :
    ∀ st : LoopState, (streamLoop um st cs).2.isSome = true ↔ ∀ c ∈ cs, c.AddChunk = true := by
  induction cs with
  | nil => intro st; simp [streamLoop]
  | cons c cs ih =>
    intro st
    by_cases hc : c.AddChunk = false
    · simp [streamLoop, hc]
    · simp [streamLoop, hc, ih]

theorem streamLoop_no_close (um : String → Option Arguments) (cs : List Chunk) :
    ∀ st : LoopState, ChanOp.closeEvents ∉ (streamLoop um st cs).1 ∧
      ChanOp.closeResult ∉ (streamLoop um st cs).1 ∧ ChanOp.closeErr ∉ (streamLoop um st cs).1 := by
  induction cs with
  | nil => intro st; simp [streamLoop]
  | cons c cs ih =>
    intro st
    by_cases hc : c.AddChunk = false
    · simp [streamLoop, hc]
    · have := ih (processChunk um st c).1
      simp [streamLoop, hc, this]

/-- C1: every execution of `Provider.Stream` sends exactly one value in total on
`Result` and `Err`, whichever way the run ends. -/
theorem Stream_exactly_one_result_or_err (unmarshal : String → Option Arguments) (now : Nat)
    (p : Provider) (s : ChunkStream) (ctxErr : Option GoError) :
    (sentResults (p.Stream unmarshal now s ctxErr)).length +
      (sentErrs (p.Stream unmarshal now s ctxErr)).length = 1 := by
  unfold Provider.Stream
  cases p.getClient.1 with
  | error err => simp [sentResults, sentErrs]
  | ok c =>
    have h := streamLoop_results_errs unmarshal s.chunks (initialState now p)
    cases hr : (streamLoop unmarshal (initialState now p) s.chunks).2 with
    | none =>
      simp [hr] at h
      simp [hr, sentResults, sentErrs, h.1, h.2]
    | some st1 =>
      simp [hr] at h
      cases hs : s.Err <;> cases hctx : ctxErr <;>
        simp [hr, sentResults, sentErrs, sentResults_append, sentErrs_append, finish, Close,
          h.1, h.2]

/-- C2: when the client exists, every chunk is accepted, the stream reports no
error and the context is not cancelled, the run is: sends on `Events` none of
which is an `EventDone`, then `EventDone` on `Events`, then the message on
`Result`, then the three closes.  The message on `Result` is the one inside
`EventDone` and the reason of `EventDone` is that message's `StopReason`. -/
theorem Stream_natural_end (unmarshal : String → Option Arguments) (now : Nat) (p : Provider)
    (s : ChunkStream) (c : Client) (hclient : p.getClient.1 = .ok c)
    (hacc : ∀ ch ∈ s.chunks, ch.AddChunk = true) (hsrc : s.Err = none) :
    ∃ (evs : List AssistantMessageEvent) (m : AssistantMessage),
      p.Stream unmarshal now s none =
        evs.map ChanOp.sendEvents ++
          [.sendEvents (.EventDone m.StopReason m), .sendResult m,
           .closeEvents, .closeResult, .closeErr] ∧
      ∀ e ∈ evs, isDone e = false := by
  refine ⟨.EventStart :: (runChunks unmarshal (initialState now p) s.chunks).2,
    (runChunks unmarshal (initialState now p) s.chunks).1.output, ?_, ?_⟩
  · rw [Stream_accepted unmarshal now p s none c hclient hacc]
    simp [finish, hsrc, Close]
  · intro e he
    rcases List.mem_cons.1 he with he | he
    · subst he; rfl
    · exact runChunks_isDone unmarshal s.chunks _ e he

/-- The natural end of `helloStream`: two text deltas, then the finish chunk. -/
theorem Stream_natural_end_witness :
    ∃ (evs : List AssistantMessageEvent) (m : AssistantMessage),
      sampleProvider.Stream sampleUnmarshal 0 helloStream none =
        evs.map ChanOp.sendEvents ++
          [.sendEvents (.EventDone m.StopReason m), .sendResult m,
           .closeEvents, .closeResult, .closeErr] ∧
      ∀ e ∈ evs, isDone e = false :=
  Stream_natural_end sampleUnmarshal 0 sampleProvider helloStream sampleClient
    (by rfl) (by decide) (by decide)

/-- C3: when the stream ends with an error after any list of accepted chunks,
`Provider.Stream` sends that error on `Err`, sends nothing on `Result`, and no
event it sent is an `EventDone`. -/
theorem Stream_source_error (unmarshal : String → Option Arguments) (now : Nat) (p : Provider)
    (s : ChunkStream) (ctxErr : Option GoError) (c : Client) (e : GoError)
    (hclient : p.getClient.1 = .ok c) (hacc : ∀ ch ∈ s.chunks, ch.AddChunk = true)
    (hsrc : s.Err = some e) :
    sentErrs (p.Stream unmarshal now s ctxErr) = [e] ∧
    sentResults (p.Stream unmarshal now s ctxErr) = [] ∧
    ∀ ev ∈ sentEvents (p.Stream unmarshal now s ctxErr), isDone ev = false := by
  rw [Stream_accepted unmarshal now p s ctxErr c hclient hacc]
  have hd := runChunks_isDone unmarshal s.chunks (initialState now p)
  refine ⟨?_, ?_, ?_⟩
  · simp [finish, hsrc, sentErrs, sentErrs_append, sentErrs_map]
  · simp [finish, hsrc, sentResults, sentResults_append, sentResults_map]
  · intro ev hev
    simp only [finish, hsrc, sentEvents, sentEvents_append, sentEvents_map, List.append_nil,
      List.mem_cons] at hev
    rcases hev with hev | hev
    · subst hev; rfl
    · exact hd ev hev

/-- The run of `brokenStream`, which fails after one text delta. -/
theorem Stream_source_error_witness :
    sentErrs (sampleProvider.Stream sampleUnmarshal 0 brokenStream none) =
      [.msg "unexpected EOF"] ∧
    sentResults (sampleProvider.Stream sampleUnmarshal 0 brokenStream none) = [] ∧
    ∀ ev ∈ sentEvents (sampleProvider.Stream sampleUnmarshal 0 brokenStream none),
      isDone ev = false :=
  Stream_source_error sampleUnmarshal 0 sampleProvider brokenStream none sampleClient
    (.msg "unexpected EOF") (by rfl) (by decide) (by decide)

/-- C4: when the context is cancelled as the loop ends (the stream itself
reporting no error), `Provider.Stream` sends the events of the loop and nothing
after them, none of them an `EventDone`, then `ctx.Err()` on `Err`, and nothing
on `Result`: and it returns there, so `Events` is never closed. -/
theorem Stream_cancelled (unmarshal : String → Option Arguments) (now : Nat) (p : Provider)
    (s : ChunkStream) (c : Client) (e : GoError)
    (hclient : p.getClient.1 = .ok c) (hacc : ∀ ch ∈ s.chunks, ch.AddChunk = true)
    (hsrc : s.Err = none) :
    p.Stream unmarshal now s (some e) =
      (AssistantMessageEvent.EventStart ::
        (runChunks unmarshal (initialState now p) s.chunks).2).map ChanOp.sendEvents ++
        [.sendErr e] ∧
    (∀ ev ∈ (runChunks unmarshal (initialState now p) s.chunks).2, isDone ev = false) ∧
    ChanOp.closeEvents ∉ p.Stream unmarshal now s (some e) := by
  rw [Stream_accepted unmarshal now p s (some e) c hclient hacc]
  refine ⟨?_, runChunks_isDone unmarshal s.chunks _, ?_⟩
  · simp [finish, hsrc]
  · simp [finish, hsrc]

/-- The run of `shortStream` with the context cancelled after one text delta. -/
theorem Stream_cancelled_witness :
    sampleProvider.Stream sampleUnmarshal 0 shortStream (some ctxCanceled) =
      (AssistantMessageEvent.EventStart ::
        (runChunks sampleUnmarshal (initialState 0 sampleProvider) shortStream.chunks).2).map
          ChanOp.sendEvents ++ [.sendErr ctxCanceled] ∧
    (∀ ev ∈ (runChunks sampleUnmarshal (initialState 0 sampleProvider) shortStream.chunks).2,
      isDone ev = false) ∧
    ChanOp.closeEvents ∉ sampleProvider.Stream sampleUnmarshal 0 shortStream (some ctxCanceled) :=
  Stream_cancelled sampleUnmarshal 0 sampleProvider shortStream sampleClient ctxCanceled
    (by rfl) (by decide) (by decide)

/-- C5: `Provider.Stream` closes `Events` (and with it `Result` and `Err`)
exactly on the successful path: the client exists, every chunk is accepted, the
stream reports no error and the context is not cancelled.  On each failure path
it returns without a close. -/
theorem Stream_closes_iff_success (unmarshal : String → Option Arguments) (now : Nat)
    (p : Provider) (s : ChunkStream) (ctxErr : Option GoError) :
    ChanOp.closeEvents ∈ p.Stream unmarshal now s ctxErr ↔
      ((∃ c, p.getClient.1 = .ok c) ∧ (∀ ch ∈ s.chunks, ch.AddChunk = true) ∧
        s.Err = none ∧ ctxErr = none) := by
  unfold Provider.Stream
  cases hg : p.getClient.1 with
  | error err => simp
  | ok c =>
    have hno := (streamLoop_no_close unmarshal s.chunks (initialState now p)).1
    have hsome := streamLoop_isSome unmarshal s.chunks (initialState now p)
    cases hr : (streamLoop unmarshal (initialState now p) s.chunks).2 with
    | none =>
      simp [hr] at hsome
      simp [hr, hno]
      intro h
      obtain ⟨x, hx, hx2⟩ := hsome
      exact absurd (h x hx) (by simp [hx2])
    | some st1 =>
      simp [hr] at hsome
      cases hs : s.Err <;> cases hctx : ctxErr <;> simp [hr, hno, finish, Close]
      exact hsome

/-! ### The message under construction -/

theorem updateStopReason_contents (st : LoopState) (ch : Chunk) :
    (updateStopReason st ch).output.Contents = st.output.Contents := by
  unfold updateStopReason
  split
  · split <;> rfl
  · rfl

theorem handleTextDelta_output (st : LoopState) (c : String) :
    (handleTextDelta st c).1.output = st.output := by
  unfold handleTextDelta
  split
  · split <;> rfl
  · rfl

theorem handleToolCallDelta_output (st : LoopState) (d : ToolCallDelta) :
    (handleToolCallDelta st d).1.output = st.output := by
  unfold handleToolCallDelta
  by_cases h1 : st.currentBlockType ≠ "toolCall" <;> by_cases h2 : d.Arguments ≠ "" <;>
    simp [h1, h2]

theorem handleToolCallDeltas_output (ds : List ToolCallDelta) :
    ∀ st : LoopState, (handleToolCallDeltas st ds).1.output = st.output := by
  induction ds with
  | nil => intro st; rfl
  | cons d ds ih =>
    intro st
    simp only [handleToolCallDeltas]
    rw [ih, handleToolCallDelta_output]

/-- The state of `processChunk` after the two "finished block" steps; the
delta steps that follow leave the message as it is there. -/
theorem processChunk_output (um : String → Option Arguments) (st : LoopState) (ch : Chunk) :
    (processChunk um st ch).1.output =
      (handleFinishedToolCall um
        (handleFinishedContent (updateStopReason st ch) ch).1 ch).1.output := by
  unfold processChunk
  split
  · rfl
  · simp only [handleToolCallDeltas_output, handleTextDelta_output]

theorem endItems_append (a b : List AssistantMessageEvent) :
    endItems (a ++ b) = endItems a ++ endItems b := by
  simp [endItems]

theorem handleFinishedContent_contents (st : LoopState) (ch : Chunk) :
    (handleFinishedContent st ch).1.output.Contents =
      st.output.Contents ++ endItems (handleFinishedContent st ch).2 := by
  unfold handleFinishedContent
  split <;> simp [endItems, endItem]

theorem handleFinishedToolCall_contents (um : String → Option Arguments) (st : LoopState)
    (ch : Chunk) :
    (handleFinishedToolCall um st ch).1.output.Contents =
      st.output.Contents ++ endItems (handleFinishedToolCall um st ch).2 := by
  unfold handleFinishedToolCall
  split <;> simp [endItems, endItem]

theorem handleTextDelta_endItems (st : LoopState) (c : String) :
    endItems (handleTextDelta st c).2 = [] := by
  unfold handleTextDelta
  split
  · split <;> simp [endItems, endItem]
  · rfl

theorem handleToolCallDelta_endItems (st : LoopState) (d : ToolCallDelta) :
    endItems (handleToolCallDelta st d).2 = [] := by
  unfold handleToolCallDelta
  by_cases h1 : st.currentBlockType ≠ "toolCall" <;> by_cases h2 : d.Arguments ≠ "" <;>
    simp [h1, h2, endItems, endItem]

theorem handleToolCallDeltas_endItems (ds : List ToolCallDelta) :
    ∀ st : LoopState, endItems (handleToolCallDeltas st ds).2 = [] := by
  induction ds with
  | nil => intro st; rfl
  | cons d ds ih =>
    intro st
    simp only [handleToolCallDeltas, endItems_append, ih, handleToolCallDelta_endItems,
      List.append_nil]

/-- One loop iteration appends to `Contents` the items of the End events it
sends, in the order it sends them, and nothing else. -/
theorem processChunk_contents (um : String → Option Arguments) (st : LoopState) (ch : Chunk) :
    (processChunk um st ch).1.output.Contents =
      st.output.Contents ++ endItems (processChunk um st ch).2 := by
  rw [processChunk_output, handleFinishedToolCall_contents, handleFinishedContent_contents,
    updateStopReason_contents]
  unfold processChunk
  split
  · simp [endItems_append]
  · simp [endItems_append, handleTextDelta_endItems, handleToolCallDeltas_endItems]

theorem runChunks_contents (um : String → Option Arguments) (cs : List Chunk) :
    ∀ st : LoopState, (runChunks um st cs).1.output.Contents =
      st.output.Contents ++ endItems (runChunks um st cs).2 := by
  induction cs with
  | nil => intro st; simp [runChunks, endItems]
  | cons c cs ih =>
    intro st
    simp only [runChunks, endItems_append]
    rw [ih, processChunk_contents, List.append_assoc]

/-- C6: a finished tool call whose argument text `json.Unmarshal` rejects is
resolved with the empty map: the loop iteration sends `EventToolcallEnd` with
that tool call, appends it as the last item of `Contents`, and the loop goes on
with the chunks that follow, the iteration having sent on `Events` only. -/
theorem malformed_arguments_resolve_empty (unmarshal : String → Option Arguments)
    (st : LoopState) (chunk : Chunk) (rest : List Chunk) (toolCall : FinishedToolCall)
    (hadd : chunk.AddChunk = true) (hfin : chunk.JustFinishedToolCall = some toolCall)
    (hbad : unmarshal toolCall.Arguments = none) :
    resolveToolCall unmarshal toolCall =
      { ID := toolCall.ID, Name := toolCall.Name, Arguments := [] } ∧
    AssistantMessageEvent.EventToolcallEnd
        (handleFinishedContent (updateStopReason st chunk) chunk).1.currentContentIndex
        { ID := toolCall.ID, Name := toolCall.Name, Arguments := [] }
        (handleFinishedContent (updateStopReason st chunk) chunk).1.output
      ∈ (processChunk unmarshal st chunk).2 ∧
    (processChunk unmarshal st chunk).1.output.Contents =
      (handleFinishedContent (updateStopReason st chunk) chunk).1.output.Contents ++
        [Content.ToolCall { ID := toolCall.ID, Name := toolCall.Name, Arguments := [] }] ∧
    streamLoop unmarshal st (chunk :: rest) =
      ((processChunk unmarshal st chunk).2.map ChanOp.sendEvents ++
         (streamLoop unmarshal (processChunk unmarshal st chunk).1 rest).1,
       (streamLoop unmarshal (processChunk unmarshal st chunk).1 rest).2) := by
  have hres : resolveToolCall unmarshal toolCall =
      { ID := toolCall.ID, Name := toolCall.Name, Arguments := [] } := by
    simp [resolveToolCall, hbad]
  refine ⟨hres, ?_, ?_, ?_⟩
  · unfold processChunk
    split <;> simp [handleFinishedToolCall, hfin, hres]
  · rw [processChunk_output]
    simp [handleFinishedToolCall, hfin, hres]
  · simp [streamLoop, hadd]

/-- The tool call `truncatedToolCall`, reported as finished after one tool call
delta and followed by the usage chunk. -/
theorem malformed_arguments_resolve_empty_witness :
    sampleUnmarshal truncatedToolCall.Arguments = none ∧
    resolveToolCall sampleUnmarshal truncatedToolCall =
      { ID := "t1", Name := "getWeather", Arguments := [] } ∧
    AssistantMessageEvent.EventToolcallEnd
        (handleFinishedContent (updateStopReason afterToolDelta truncatedFinish)
          truncatedFinish).1.currentContentIndex
        { ID := "t1", Name := "getWeather", Arguments := [] }
        (handleFinishedContent (updateStopReason afterToolDelta truncatedFinish)
          truncatedFinish).1.output
      ∈ (processChunk sampleUnmarshal afterToolDelta truncatedFinish).2 ∧
    (processChunk sampleUnmarshal afterToolDelta truncatedFinish).1.output.Contents =
      (handleFinishedContent (updateStopReason afterToolDelta truncatedFinish)
          truncatedFinish).1.output.Contents ++
        [Content.ToolCall { ID := "t1", Name := "getWeather", Arguments := [] }] ∧
    streamLoop sampleUnmarshal afterToolDelta (truncatedFinish :: [usageChunk]) =
      ((processChunk sampleUnmarshal afterToolDelta truncatedFinish).2.map ChanOp.sendEvents ++
         (streamLoop sampleUnmarshal
            (processChunk sampleUnmarshal afterToolDelta truncatedFinish).1 [usageChunk]).1,
       (streamLoop sampleUnmarshal
          (processChunk sampleUnmarshal afterToolDelta truncatedFinish).1 [usageChunk]).2) :=
  ⟨by decide,
   malformed_arguments_resolve_empty sampleUnmarshal afterToolDelta truncatedFinish [usageChunk]
     truncatedToolCall (by decide) (by decide) (by decide)⟩

/-- C7: on a successfully completed stream the `Contents` of the message sent on
`Result` is the list of items carried by the `EventTextEnd` and
`EventToolcallEnd` events sent on `Events`, in the order they were sent. -/
theorem Stream_contents_eq_endItems (unmarshal : String → Option Arguments) (now : Nat)
    (p : Provider) (s : ChunkStream) (c : Client) (hclient : p.getClient.1 = .ok c)
    (hacc : ∀ ch ∈ s.chunks, ch.AddChunk = true) (hsrc : s.Err = none) :
    ∃ m : AssistantMessage,
      sentResults (p.Stream unmarshal now s none) = [m] ∧
      m.Contents = endItems (sentEvents (p.Stream unmarshal now s none)) := by
  refine ⟨(runChunks unmarshal (initialState now p) s.chunks).1.output, ?_, ?_⟩
  · rw [Stream_accepted unmarshal now p s none c hclient hacc]
    simp [finish, hsrc, Close, sentResults, sentResults_append, sentResults_map]
  · rw [Stream_accepted unmarshal now p s none c hclient hacc, runChunks_contents]
    simp [finish, hsrc, Close, sentEvents, sentEvents_append, sentEvents_map, endItems,
      endItem, initialState]

/-- The final message of `helloStream` against its End events. -/
theorem Stream_contents_eq_endItems_witness :
    ∃ m : AssistantMessage,
      sentResults (sampleProvider.Stream sampleUnmarshal 0 helloStream none) = [m] ∧
      m.Contents = endItems (sentEvents (sampleProvider.Stream sampleUnmarshal 0 helloStream none)) :=
  Stream_contents_eq_endItems sampleUnmarshal 0 sampleProvider helloStream sampleClient
    (by rfl) (by decide) (by decide)

/-! ### Content indices -/

theorem indexedFrom_append (a : List AssistantMessageEvent) :
    ∀ (i : Int) (b : List AssistantMessageEvent),
      indexedFrom i (a ++ b) ↔ indexedFrom i a ∧ indexedFrom (i + (a.countP isStart : Nat)) b := by
  induction a with
  | nil => intro i b; simp [indexedFrom]
  | cons e es ih =>
    intro i b
    cases e <;> simp [indexedFrom, isStart, ih, List.countP_cons, and_assoc] <;>
      (intros; rw [show i + 1 + (List.countP isStart es : Int) =
        i + ((List.countP isStart es : Int) + 1) by ring])

theorem handleFinishedContent_indexed (st : LoopState) (ch : Chunk) :
    indexedFrom st.currentContentIndex (handleFinishedContent st ch).2 ∧
    (handleFinishedContent st ch).1.currentContentIndex =
      st.currentContentIndex + ((handleFinishedContent st ch).2.countP isStart : Nat) := by
  unfold handleFinishedContent
  split <;> simp [indexedFrom, isStart]

theorem handleFinishedToolCall_indexed (um : String → Option Arguments) (st : LoopState)
    (ch : Chunk) :
    indexedFrom st.currentContentIndex (handleFinishedToolCall um st ch).2 ∧
    (handleFinishedToolCall um st ch).1.currentContentIndex =
      st.currentContentIndex + ((handleFinishedToolCall um st ch).2.countP isStart : Nat) := by
  unfold handleFinishedToolCall
  split <;> simp [indexedFrom, isStart]

theorem handleTextDelta_indexed (st : LoopState) (c : String) :
    indexedFrom st.currentContentIndex (handleTextDelta st c).2 ∧
    (handleTextDelta st c).1.currentContentIndex =
      st.currentContentIndex + ((handleTextDelta st c).2.countP isStart : Nat) := by
  unfold handleTextDelta
  split
  · split <;> simp [indexedFrom, isStart]
  · simp [indexedFrom]

theorem handleToolCallDelta_indexed (st : LoopState) (d : ToolCallDelta) :
    indexedFrom st.currentContentIndex (handleToolCallDelta st d).2 ∧
    (handleToolCallDelta st d).1.currentContentIndex =
      st.currentContentIndex + ((handleToolCallDelta st d).2.countP isStart : Nat) := by
  unfold handleToolCallDelta
  by_cases h1 : st.currentBlockType ≠ "toolCall" <;> by_cases h2 : d.Arguments ≠ "" <;>
    simp [h1, h2, indexedFrom, isStart]

theorem handleToolCallDeltas_indexed (ds : List ToolCallDelta) :
    ∀ st : LoopState,
      indexedFrom st.currentContentIndex (handleToolCallDeltas st ds).2 ∧
      (handleToolCallDeltas st ds).1.currentContentIndex =
        st.currentContentIndex + ((handleToolCallDeltas st ds).2.countP isStart : Nat) := by
  induction ds with
  | nil => intro st; simp [handleToolCallDeltas, indexedFrom]
  | cons d ds ih =>
    intro st
    have h1 := handleToolCallDelta_indexed st d
    have h2 := ih (handleToolCallDelta st d).1
    simp only [handleToolCallDeltas, indexedFrom_append, List.countP_append]
    rw [← h1.2]
    refine ⟨⟨h1.1, h2.1⟩, ?_⟩
    rw [h2.2, h1.2]
    push_cast
    ring

theorem updateStopReason_index (st : LoopState) (ch : Chunk) :
    (updateStopReason st ch).currentContentIndex = st.currentContentIndex := by
  unfold updateStopReason
  split
  · split <;> rfl
  · rfl

/-- Two steps that each keep the indices in order do so one after the other. -/
theorem indexed_seq (i j k : Int) (a b : List AssistantMessageEvent)
    (ha : indexedFrom i a) (hj : j = i + (a.countP isStart : Nat))
    (hb : indexedFrom j b) (hk : k = j + (b.countP isStart : Nat)) :
    indexedFrom i (a ++ b) ∧ k = i + ((a ++ b).countP isStart : Nat) := by
  subst hj
  refine ⟨(indexedFrom_append a i b).2 ⟨ha, hb⟩, ?_⟩
  rw [hk, List.countP_append]
  push_cast
  ring

theorem processChunk_indexed (um : String → Option Arguments) (st : LoopState) (ch : Chunk) :
    indexedFrom st.currentContentIndex (processChunk um st ch).2 ∧
    (processChunk um st ch).1.currentContentIndex =
      st.currentContentIndex + ((processChunk um st ch).2.countP isStart : Nat) := by
  have h1 := handleFinishedContent_indexed (updateStopReason st ch) ch
  rw [updateStopReason_index] at h1
  have h2 := handleFinishedToolCall_indexed um (handleFinishedContent (updateStopReason st ch) ch).1 ch
  have h12 := indexed_seq _ _ _ _ _ h1.1 h1.2 h2.1 h2.2
  unfold processChunk
  split
  · exact h12
  · rename_i c cs hc
    have h3 := handleTextDelta_indexed
      (handleFinishedToolCall um (handleFinishedContent (updateStopReason st ch) ch).1 ch).1
      c.Content
    have h123 := indexed_seq _ _ _ _ _ h12.1 h12.2 h3.1 h3.2
    have h4 := handleToolCallDeltas_indexed c.ToolCalls
      (handleTextDelta
        (handleFinishedToolCall um (handleFinishedContent (updateStopReason st ch) ch).1 ch).1
        c.Content).1
    exact indexed_seq _ _ _ _ _ h123.1 h123.2 h4.1 h4.2

theorem runChunks_indexed (um : String → Option Arguments) (cs : List Chunk) :
    ∀ st : LoopState,
      indexedFrom st.currentContentIndex (runChunks um st cs).2 ∧
      (runChunks um st cs).1.currentContentIndex =
        st.currentContentIndex + ((runChunks um st cs).2.countP isStart : Nat) := by
  induction cs with
  | nil => intro st; simp [runChunks, indexedFrom]
  | cons c cs ih =>
    intro st
    have h1 := processChunk_indexed um st c
    have h2 := ih (processChunk um st c).1
    exact indexed_seq _ _ _ _ _ h1.1 h1.2 h2.1 h2.2

/-- In a list with ordered indices an End event carries the start value of the
counter plus the number of Start events before it. -/
theorem indexedFrom_end (pre : List AssistantMessageEvent) :
    ∀ (i : Int) (e : AssistantMessageEvent) (post : List AssistantMessageEvent) (k : Int),
      indexedFrom i (pre ++ e :: post) → endIndex e = some k →
      k = i + (pre.countP isStart : Nat) := by
  intro i e post k h he
  have h2 := ((indexedFrom_append pre i (e :: post)).1 h).2
  cases e <;> simp [endIndex] at he <;> simp [indexedFrom] at h2 <;> omega

/-- In a list with ordered indices the last Start event carries the start value
of the counter plus the number of Start events. -/
theorem indexedFrom_lastStart (pre : List AssistantMessageEvent) :
    ∀ i : Int, indexedFrom i pre → lastStartIndexFrom i pre = i + (pre.countP isStart : Nat) := by
  induction pre with
  | nil => intro i _; simp [lastStartIndexFrom]
  | cons e es ih =>
    intro i h
    cases e <;> simp [indexedFrom] at h <;>
      simp [lastStartIndexFrom, startIndex, isStart, List.countP_cons] <;>
      first
        | exact ih i h
        | exact ih i h.2
        | (rw [h.1, ih (i + 1) h.2]; omega)

/-- The events of a successfully completed stream. -/
theorem Stream_success_events (unmarshal : String → Option Arguments) (now : Nat)
    (p : Provider) (s : ChunkStream) (c : Client) (hclient : p.getClient.1 = .ok c)
    (hacc : ∀ ch ∈ s.chunks, ch.AddChunk = true) (hsrc : s.Err = none) :
    sentEvents (p.Stream unmarshal now s none) =
      .EventStart :: ((runChunks unmarshal (initialState now p) s.chunks).2 ++
        [.EventDone (runChunks unmarshal (initialState now p) s.chunks).1.output.StopReason
          (runChunks unmarshal (initialState now p) s.chunks).1.output]) ∧
    sentResults (p.Stream unmarshal now s none) =
      [(runChunks unmarshal (initialState now p) s.chunks).1.output] := by
  rw [Stream_accepted unmarshal now p s none c hclient hacc]
  simp [finish, hsrc, Close, sentEvents, sentEvents_append, sentEvents_map, sentResults,
    sentResults_append, sentResults_map]

theorem Stream_success_indexed (unmarshal : String → Option Arguments) (now : Nat)
    (p : Provider) (s : ChunkStream) (c : Client) (hclient : p.getClient.1 = .ok c)
    (hacc : ∀ ch ∈ s.chunks, ch.AddChunk = true) (hsrc : s.Err = none) :
    indexedFrom (-1) (sentEvents (p.Stream unmarshal now s none)) := by
  rw [(Stream_success_events unmarshal now p s c hclient hacc hsrc).1]
  have h := (runChunks_indexed unmarshal s.chunks (initialState now p)).1
  have h2 : indexedFrom (-1) ((runChunks unmarshal (initialState now p) s.chunks).2 ++
      [.EventDone (runChunks unmarshal (initialState now p) s.chunks).1.output.StopReason
        (runChunks unmarshal (initialState now p) s.chunks).1.output]) :=
    (indexedFrom_append _ _ _).2 ⟨h, by simp [indexedFrom]⟩
  simpa [indexedFrom] using h2

theorem Stream_success_contents (unmarshal : String → Option Arguments) (now : Nat)
    (p : Provider) (s : ChunkStream) (c : Client) (hclient : p.getClient.1 = .ok c)
    (hacc : ∀ ch ∈ s.chunks, ch.AddChunk = true) (hsrc : s.Err = none) :
    (runChunks unmarshal (initialState now p) s.chunks).1.output.Contents =
      endItems (sentEvents (p.Stream unmarshal now s none)) := by
  rw [(Stream_success_events unmarshal now p s c hclient hacc hsrc).1, runChunks_contents]
  simp [endItems, endItem, initialState]

/-- C8, as stated, fails: for one chunk with a text delta and a tool call delta
followed by the finish chunk, the final `Contents` has the one item
`TextContent "A"`, at position 0, and the End event that appended it carries
`ContentIndex` 1. -/
theorem mixedStream_end_index_is_not_position :
    (sentResults (sampleProvider.Stream sampleUnmarshal 0 mixedStream none)).map (·.Contents) =
      [[Content.TextContent "A"]] ∧
    endIndices (sentEvents (sampleProvider.Stream sampleUnmarshal 0 mixedStream none)) = [1] := by
  decide

/-- C8, amended: on a successfully completed stream the item of an End event is
at the position of the final `Contents` given by the number of End events sent
before it, and the `ContentIndex` of that End event is the number of Start
events sent before it, less one. -/
theorem Stream_end_event_position (unmarshal : String → Option Arguments) (now : Nat)
    (p : Provider) (s : ChunkStream) (c : Client) (hclient : p.getClient.1 = .ok c)
    (hacc : ∀ ch ∈ s.chunks, ch.AddChunk = true) (hsrc : s.Err = none) :
    ∃ m : AssistantMessage,
      sentResults (p.Stream unmarshal now s none) = [m] ∧
      ∀ (pre : List AssistantMessageEvent) (e : AssistantMessageEvent)
        (post : List AssistantMessageEvent) (item : Content),
        sentEvents (p.Stream unmarshal now s none) = pre ++ e :: post →
        endItem e = some item →
        m.Contents[(endItems pre).length]? = some item ∧
        endIndex e = some ((pre.countP isStart : Int) - 1) := by
  refine ⟨_, (Stream_success_events unmarshal now p s c hclient hacc hsrc).2, ?_⟩
  intro pre e post item hsplit hitem
  constructor
  · rw [Stream_success_contents unmarshal now p s c hclient hacc hsrc, hsplit]
    simp only [endItems, List.filterMap_append, List.filterMap_cons, hitem]
    rw [List.getElem?_append_right (le_refl _)]
    simp
  · have hidx := Stream_success_indexed unmarshal now p s c hclient hacc hsrc
    rw [hsplit] at hidx
    cases e <;> simp [endItem] at hitem
    · rw [indexedFrom_end pre (-1) _ post _ hidx rfl]
      simp [endIndex]; omega
    · rw [indexedFrom_end pre (-1) _ post _ hidx rfl]
      simp [endIndex]; omega

/-- The End event of `mixedStream`: position 0 in `Contents`, one less than the
two Start events before it as `ContentIndex`. -/
theorem Stream_end_event_position_witness :
    ∃ m : AssistantMessage,
      sentResults (sampleProvider.Stream sampleUnmarshal 0 mixedStream none) = [m] ∧
      ∀ (pre : List AssistantMessageEvent) (e : AssistantMessageEvent)
        (post : List AssistantMessageEvent) (item : Content),
        sentEvents (sampleProvider.Stream sampleUnmarshal 0 mixedStream none) = pre ++ e :: post →
        endItem e = some item →
        m.Contents[(endItems pre).length]? = some item ∧
        endIndex e = some ((pre.countP isStart : Int) - 1) :=
  Stream_end_event_position sampleUnmarshal 0 sampleProvider mixedStream sampleClient
    (by rfl) (by decide) (by decide)

/-! ### Counting End events -/

theorem handleTextDelta_ends (st : LoopState) (c : String) :
    (handleTextDelta st c).2.countP isTextEnd = 0 ∧
    (handleTextDelta st c).2.countP isToolcallEnd = 0 := by
  unfold handleTextDelta
  split
  · split <;> simp [isTextEnd, isToolcallEnd]
  · simp

theorem handleToolCallDelta_ends (st : LoopState) (d : ToolCallDelta) :
    (handleToolCallDelta st d).2.countP isTextEnd = 0 ∧
    (handleToolCallDelta st d).2.countP isToolcallEnd = 0 := by
  unfold handleToolCallDelta
  by_cases h1 : st.currentBlockType ≠ "toolCall" <;> by_cases h2 : d.Arguments ≠ "" <;>
    simp [h1, h2, isTextEnd, isToolcallEnd]

theorem handleToolCallDeltas_ends (ds : List ToolCallDelta) :
    ∀ st : LoopState,
      (handleToolCallDeltas st ds).2.countP isTextEnd = 0 ∧
      (handleToolCallDeltas st ds).2.countP isToolcallEnd = 0 := by
  induction ds with
  | nil => intro st; simp [handleToolCallDeltas]
  | cons d ds ih =>
    intro st
    have h1 := handleToolCallDelta_ends st d
    have h2 := ih (handleToolCallDelta st d).1
    simp [handleToolCallDeltas, List.countP_append, h1.1, h1.2, h2.1, h2.2]

theorem handleFinishedContent_ends (st : LoopState) (ch : Chunk) :
    (handleFinishedContent st ch).2.countP isTextEnd = (if reportsText ch then 1 else 0) ∧
    (handleFinishedContent st ch).2.countP isToolcallEnd = 0 := by
  unfold handleFinishedContent reportsText
  split
  · rename_i h
    simp [isTextEnd, isToolcallEnd, h.1, h.2]
  · rename_i h
    simp only [List.countP_nil, true_and, and_true]
    split
    · rename_i h2
      simp at h2
      exact absurd ⟨h2.1, h2.2⟩ h
    · rfl

theorem handleFinishedToolCall_ends (um : String → Option Arguments) (st : LoopState)
    (ch : Chunk) :
    (handleFinishedToolCall um st ch).2.countP isTextEnd = 0 ∧
    (handleFinishedToolCall um st ch).2.countP isToolcallEnd =
      (if reportsToolCall ch then 1 else 0) := by
  unfold handleFinishedToolCall reportsToolCall
  split <;> rename_i h <;> simp [isTextEnd, isToolcallEnd, h]

theorem processChunk_ends (um : String → Option Arguments) (st : LoopState) (ch : Chunk) :
    (processChunk um st ch).2.countP isTextEnd = (if reportsText ch then 1 else 0) ∧
    (processChunk um st ch).2.countP isToolcallEnd = (if reportsToolCall ch then 1 else 0) := by
  have h1 := handleFinishedContent_ends (updateStopReason st ch) ch
  have h2 := handleFinishedToolCall_ends um (handleFinishedContent (updateStopReason st ch) ch).1 ch
  unfold processChunk
  split
  · simp only [List.countP_append, h1.1, h1.2, h2.1, h2.2]
    exact ⟨rfl, by simp⟩
  · rename_i c cs hc
    have h3 := handleTextDelta_ends
      (handleFinishedToolCall um (handleFinishedContent (updateStopReason st ch) ch).1 ch).1
      c.Content
    have h4 := handleToolCallDeltas_ends c.ToolCalls
      (handleTextDelta
        (handleFinishedToolCall um (handleFinishedContent (updateStopReason st ch) ch).1 ch).1
        c.Content).1
    simp only [List.countP_append, h1.1, h1.2, h2.1, h2.2, h3.1, h3.2, h4.1, h4.2]
    exact ⟨rfl, by simp⟩

theorem runChunks_ends (um : String → Option Arguments) (cs : List Chunk) :
    ∀ st : LoopState,
      (runChunks um st cs).2.countP isTextEnd = cs.countP reportsText ∧
      (runChunks um st cs).2.countP isToolcallEnd = cs.countP reportsToolCall := by
  induction cs with
  | nil => intro st; simp [runChunks]
  | cons c cs ih =>
    intro st
    have h1 := processChunk_ends um st c
    have h2 := ih (processChunk um st c).1
    simp only [runChunks, List.countP_append, List.countP_cons, h1.1, h1.2, h2.1, h2.2]
    constructor <;> omega

/-- C9, as stated, fails: for one chunk with a text delta and a tool call delta
followed by the finish chunk, the successfully completed stream has one
`EventToolcallStart` and no `EventToolcallEnd`, and its `EventTextEnd` carries
`ContentIndex` 1 while the `EventTextStart` before it carries 0. -/
theorem mixedStream_start_without_end :
    (sentEvents (sampleProvider.Stream sampleUnmarshal 0 mixedStream none)).countP
      isToolcallStart = 1 ∧
    (sentEvents (sampleProvider.Stream sampleUnmarshal 0 mixedStream none)).countP
      isToolcallEnd = 0 ∧
    sentEvents (sampleProvider.Stream sampleUnmarshal 0 mixedStream none) =
      [.EventStart,
       .EventTextStart 0 (initialState 0 sampleProvider).output,
       .EventTextDelta 0 "A" (initialState 0 sampleProvider).output,
       .EventToolcallStart 1 (initialState 0 sampleProvider).output,
       .EventToolcallDelta 1 "\x7b\x7d" (initialState 0 sampleProvider).output,
       .EventTextEnd 1 "A" { (initialState 0 sampleProvider).output with StopReason := "stop" },
       .EventDone "stop"
         { (initialState 0 sampleProvider).output with
           StopReason := "stop", Contents := [.TextContent "A"] }] := by
  decide

/-- C9, amended: on a successfully completed stream the `ContentIndex` of every
End event is the `ContentIndex` of the last Start event sent before it, of
either type, and `-1` when no Start event precedes it; there are as many
`EventTextEnd` events as chunks for which the accumulator reports non-empty
finished text, and as many `EventToolcallEnd` events as chunks for which it
reports a finished tool call. -/
theorem Stream_end_index_last_start (unmarshal : String → Option Arguments) (now : Nat)
    (p : Provider) (s : ChunkStream) (c : Client) (hclient : p.getClient.1 = .ok c)
    (hacc : ∀ ch ∈ s.chunks, ch.AddChunk = true) (hsrc : s.Err = none) :
    (∀ (pre : List AssistantMessageEvent) (e : AssistantMessageEvent)
        (post : List AssistantMessageEvent) (k : Int),
        sentEvents (p.Stream unmarshal now s none) = pre ++ e :: post →
        endIndex e = some k → k = lastStartIndex pre) ∧
    (sentEvents (p.Stream unmarshal now s none)).countP isTextEnd =
      s.chunks.countP reportsText ∧
    (sentEvents (p.Stream unmarshal now s none)).countP isToolcallEnd =
      s.chunks.countP reportsToolCall := by
  refine ⟨?_, ?_, ?_⟩
  · intro pre e post k hsplit hk
    have hidx := Stream_success_indexed unmarshal now p s c hclient hacc hsrc
    rw [hsplit] at hidx
    rw [indexedFrom_end pre (-1) e post k hidx hk]
    exact (indexedFrom_lastStart pre (-1) ((indexedFrom_append pre (-1) (e :: post)).1 hidx).1).symm
  · rw [(Stream_success_events unmarshal now p s c hclient hacc hsrc).1]
    simp [List.countP_cons, List.countP_append, isTextEnd,
      (runChunks_ends unmarshal s.chunks (initialState now p)).1]
  · rw [(Stream_success_events unmarshal now p s c hclient hacc hsrc).1]
    simp [List.countP_cons, List.countP_append, isToolcallEnd,
      (runChunks_ends unmarshal s.chunks (initialState now p)).2]

/-- The End event of `mixedStream` against the Start events before it. -/
theorem Stream_end_index_last_start_witness :
    (∀ (pre : List AssistantMessageEvent) (e : AssistantMessageEvent)
        (post : List AssistantMessageEvent) (k : Int),
        sentEvents (sampleProvider.Stream sampleUnmarshal 0 mixedStream none) = pre ++ e :: post →
        endIndex e = some k → k = lastStartIndex pre) ∧
    (sentEvents (sampleProvider.Stream sampleUnmarshal 0 mixedStream none)).countP isTextEnd =
      mixedStream.chunks.countP reportsText ∧
    (sentEvents (sampleProvider.Stream sampleUnmarshal 0 mixedStream none)).countP isToolcallEnd =
      mixedStream.chunks.countP reportsToolCall :=
  Stream_end_index_last_start sampleUnmarshal 0 sampleProvider mixedStream sampleClient
    (by rfl) (by decide) (by decide)

/-! ### Text deltas and the text of `EventTextEnd` -/

theorem joinText_append (a b : List String) :
    joinText (a ++ b) = joinText a ++ joinText b := by
  induction a with
  | nil => simp [joinText]
  | cons x xs ih => simp [joinText, ih, String.append_assoc]

theorem textDeltas_append (a b : List AssistantMessageEvent) :
    textDeltas (a ++ b) = textDeltas a ++ textDeltas b := by
  simp [textDeltas]

theorem textEndsAgree_append (a : List AssistantMessageEvent) :
    ∀ (acc : String) (b : List AssistantMessageEvent),
      textEndsAgree acc (a ++ b) ↔
        textEndsAgree acc a ∧ textEndsAgree (acc ++ joinText (textDeltas a)) b := by
  induction a with
  | nil => intro acc b; simp [textEndsAgree, textDeltas, joinText]
  | cons e es ih =>
    intro acc b
    cases e <;>
      simp [textEndsAgree, ih, textDeltas, textDelta, joinText, and_assoc, String.append_assoc]

theorem textEndsAgree_of_no_textEnd (evs : List AssistantMessageEvent) :
    ∀ acc : String, evs.countP isTextEnd = 0 → textEndsAgree acc evs := by
  induction evs with
  | nil => intro acc _; trivial
  | cons e es ih =>
    intro acc h
    rw [List.countP_cons] at h
    have hes : es.countP isTextEnd = 0 := (Nat.add_eq_zero_iff.1 h).1
    have he := (Nat.add_eq_zero_iff.1 h).2
    cases e <;> simp [isTextEnd] at he <;> simp only [textEndsAgree] <;> exact ih _ hes

/-- In a list whose `EventTextEnd` events agree with the deltas, the text of an
`EventTextEnd` is the deltas before it put together. -/
theorem textEndsAgree_textEnd (pre : List AssistantMessageEvent) (acc : String) (i : Int)
    (t : String) (part : AssistantMessage) (post : List AssistantMessageEvent)
    (h : textEndsAgree acc (pre ++ .EventTextEnd i t part :: post)) :
    t = acc ++ joinText (textDeltas pre) := by
  have h2 := ((textEndsAgree_append pre acc _).1 h).2
  simp only [textEndsAgree] at h2
  exact h2.1

theorem handleFinishedContent_text (st : LoopState) (ch : Chunk) (acc : String)
    (h : ch.JustFinishedContent.2 = true → ch.JustFinishedContent.1 = acc) :
    textEndsAgree acc (handleFinishedContent st ch).2 ∧
    textDeltas (handleFinishedContent st ch).2 = [] := by
  unfold handleFinishedContent
  split
  · rename_i hc
    simp [textEndsAgree, textDeltas, textDelta, h hc.1]
  · simp [textEndsAgree, textDeltas]

theorem handleFinishedToolCall_text (um : String → Option Arguments) (st : LoopState)
    (ch : Chunk) : textDeltas (handleFinishedToolCall um st ch).2 = [] := by
  unfold handleFinishedToolCall
  split <;> simp [textDeltas, textDelta]

theorem handleTextDelta_text (st : LoopState) (c : String) :
    joinText (textDeltas (handleTextDelta st c).2) = c := by
  unfold handleTextDelta
  split
  · split <;> simp [textDeltas, textDelta, joinText]
  · rename_i h
    simp at h
    simp [textDeltas, joinText, h]

theorem handleToolCallDelta_text (st : LoopState) (d : ToolCallDelta) :
    textDeltas (handleToolCallDelta st d).2 = [] := by
  unfold handleToolCallDelta
  by_cases h1 : st.currentBlockType ≠ "toolCall" <;> by_cases h2 : d.Arguments ≠ "" <;>
    simp [h1, h2, textDeltas, textDelta]

theorem handleToolCallDeltas_text (ds : List ToolCallDelta) :
    ∀ st : LoopState, textDeltas (handleToolCallDeltas st ds).2 = [] := by
  induction ds with
  | nil => intro st; rfl
  | cons d ds ih =>
    intro st
    simp only [handleToolCallDeltas, textDeltas_append, ih, handleToolCallDelta_text,
      List.append_nil]

/-- One loop iteration: its `EventTextEnd`, if any, carries the text the
accumulator reports, and its text deltas are the text delta of the chunk. -/
theorem processChunk_text (um : String → Option Arguments) (st : LoopState) (ch : Chunk)
    (acc : String) (h : ch.JustFinishedContent.2 = true → ch.JustFinishedContent.1 = acc) :
    textEndsAgree acc (processChunk um st ch).2 ∧
    joinText (textDeltas (processChunk um st ch).2) = chunkText ch := by
  have h1 := handleFinishedContent_text (updateStopReason st ch) ch acc h
  have h2 := handleFinishedToolCall_text um (handleFinishedContent (updateStopReason st ch) ch).1 ch
  have e2 := (handleFinishedToolCall_ends um
    (handleFinishedContent (updateStopReason st ch) ch).1 ch).1
  unfold processChunk chunkText
  split
  · rename_i hc
    simp only [hc, textEndsAgree_append, textDeltas_append, h1.2, h2, List.append_nil, joinText,
      String.append_empty]
    exact ⟨⟨h1.1, textEndsAgree_of_no_textEnd _ _ e2⟩, trivial⟩
  · rename_i c cs hc
    have h3 := handleTextDelta_text
      (handleFinishedToolCall um (handleFinishedContent (updateStopReason st ch) ch).1 ch).1
      c.Content
    have e3 := (handleTextDelta_ends
      (handleFinishedToolCall um (handleFinishedContent (updateStopReason st ch) ch).1 ch).1
      c.Content).1
    have h4 := handleToolCallDeltas_text c.ToolCalls
      (handleTextDelta
        (handleFinishedToolCall um (handleFinishedContent (updateStopReason st ch) ch).1 ch).1
        c.Content).1
    have e4 := (handleToolCallDeltas_ends c.ToolCalls
      (handleTextDelta
        (handleFinishedToolCall um (handleFinishedContent (updateStopReason st ch) ch).1 ch).1
        c.Content).1).1
    simp only [hc, textEndsAgree_append, textDeltas_append, joinText_append, h1.2, h2, h3, h4,
      List.append_nil, List.nil_append, joinText, String.append_empty, String.empty_append]
    exact ⟨⟨⟨⟨h1.1, textEndsAgree_of_no_textEnd _ _ e2⟩, textEndsAgree_of_no_textEnd _ _ e3⟩,
      textEndsAgree_of_no_textEnd _ _ e4⟩, trivial⟩

theorem runChunks_text (um : String → Option Arguments) (cs : List Chunk) :
    ∀ (st : LoopState) (acc : String), reportsAccumulatedText acc cs = true →
      textEndsAgree acc (runChunks um st cs).2 := by
  induction cs with
  | nil => intro st acc _; trivial
  | cons c cs ih =>
    intro st acc h
    simp only [reportsAccumulatedText, Bool.and_eq_true, Bool.or_eq_true, Bool.not_eq_true',
      beq_iff_eq] at h
    have hc : c.JustFinishedContent.2 = true → c.JustFinishedContent.1 = acc := by
      intro ht
      rcases h.1 with hf | he
      · rw [hf] at ht; cases ht
      · exact he
    have h1 := processChunk_text um st c acc hc
    simp only [runChunks, textEndsAgree_append, h1.2]
    exact ⟨h1.1, ih _ _ h.2⟩

/-- C10, as stated, fails: for text, a tool call, text again and the finish
chunk, the `EventTextEnd` with `ContentIndex` 2 carries the text "AB" while the
text deltas with `ContentIndex` 2 put together are "B". -/
theorem interleavedStream_textEnd_is_not_its_deltas :
    AssistantMessageEvent.EventTextEnd 2 "AB"
        { (initialState 0 sampleProvider).output with
          StopReason := "stop"
          Contents := [.TextContent "A",
                       .ToolCall { ID := "t1", Name := "getWeather", Arguments := [] }] }
      ∈ sentEvents (sampleProvider.Stream sampleUnmarshal 0 interleavedStream none) ∧
    joinText (textDeltasAt 2
      (sentEvents (sampleProvider.Stream sampleUnmarshal 0 interleavedStream none))) = "B" := by
  decide

/-- C10, amended: on a successfully completed stream for which the accumulator
reports, as finished text, the text deltas of the chunks before put together,
the `Content` of every `EventTextEnd` is the `Delta` fields of all
`EventTextDelta` events sent before it put together in the order sent, whatever
their `ContentIndex`. -/
theorem Stream_textEnd_content (unmarshal : String → Option Arguments) (now : Nat)
    (p : Provider) (s : ChunkStream) (c : Client) (hclient : p.getClient.1 = .ok c)
    (hacc : ∀ ch ∈ s.chunks, ch.AddChunk = true) (hsrc : s.Err = none)
    (hrep : reportsAccumulatedText "" s.chunks = true)
    (pre : List AssistantMessageEvent) (i : Int) (t : String) (part : AssistantMessage)
    (post : List AssistantMessageEvent)
    (hsplit : sentEvents (p.Stream unmarshal now s none) = pre ++ .EventTextEnd i t part :: post) :
    t = joinText (textDeltas pre) := by
  have h := runChunks_text unmarshal s.chunks (initialState now p) "" hrep
  have hall : textEndsAgree "" (sentEvents (p.Stream unmarshal now s none)) := by
    rw [(Stream_success_events unmarshal now p s c hclient hacc hsrc).1]
    simp only [textEndsAgree]
    exact (textEndsAgree_append _ _ _).2 ⟨h, by simp [textEndsAgree]⟩
  rw [hsplit] at hall
  simpa using textEndsAgree_textEnd pre "" i t part post hall

/-- The second `EventTextEnd` of `interleavedStream`, the tenth event sent: its text
is the two text deltas before it put together. -/
theorem Stream_textEnd_content_witness :
    reportsAccumulatedText "" interleavedStream.chunks = true ∧
    "AB" = joinText (textDeltas
      ((sentEvents (sampleProvider.Stream sampleUnmarshal 0 interleavedStream none)).take 9)) :=
  ⟨by decide,
   Stream_textEnd_content sampleUnmarshal 0 sampleProvider interleavedStream sampleClient
     (by rfl) (by decide) (by decide) (by decide)
     ((sentEvents (sampleProvider.Stream sampleUnmarshal 0 interleavedStream none)).take 9) 2 "AB"
     { (initialState 0 sampleProvider).output with
       StopReason := "stop"
       Contents := [.TextContent "A",
                    .ToolCall { ID := "t1", Name := "getWeather", Arguments := [] }] }
     ((sentEvents (sampleProvider.Stream sampleUnmarshal 0 interleavedStream none)).drop 10)
     (by decide)⟩

/-! ### The events of the loop -/

theorem handleFinishedContent_block (st : LoopState) (ch : Chunk) :
    ∀ e ∈ (handleFinishedContent st ch).2, isBlockEvent e = true := by
  unfold handleFinishedContent
  split <;> simp [isBlockEvent]

theorem handleFinishedToolCall_block (um : String → Option Arguments) (st : LoopState)
    (ch : Chunk) : ∀ e ∈ (handleFinishedToolCall um st ch).2, isBlockEvent e = true := by
  unfold handleFinishedToolCall
  split <;> simp [isBlockEvent]

theorem handleTextDelta_block (st : LoopState) (c : String) :
    ∀ e ∈ (handleTextDelta st c).2, isBlockEvent e = true := by
  unfold handleTextDelta
  split
  · split <;> simp [isBlockEvent]
  · simp

theorem handleToolCallDelta_block (st : LoopState) (d : ToolCallDelta) :
    ∀ e ∈ (handleToolCallDelta st d).2, isBlockEvent e = true := by
  unfold handleToolCallDelta
  by_cases h1 : st.currentBlockType ≠ "toolCall" <;> by_cases h2 : d.Arguments ≠ "" <;>
    simp [h1, h2, isBlockEvent]

theorem handleToolCallDeltas_block (ds : List ToolCallDelta) :
    ∀ st : LoopState, ∀ e ∈ (handleToolCallDeltas st ds).2, isBlockEvent e = true := by
  induction ds with
  | nil => intro st; simp [handleToolCallDeltas]
  | cons d ds ih =>
    intro st e he
    simp only [handleToolCallDeltas, List.mem_append] at he
    rcases he with he | he
    · exact handleToolCallDelta_block st d e he
    · exact ih _ e he

theorem processChunk_block (um : String → Option Arguments) (st : LoopState) (ch : Chunk) :
    ∀ e ∈ (processChunk um st ch).2, isBlockEvent e = true := by
  intro e he
  unfold processChunk at he
  split at he
  · simp only [List.mem_append] at he
    rcases he with he | he
    · exact handleFinishedContent_block _ _ e he
    · exact handleFinishedToolCall_block _ _ _ e he
  · simp only [List.mem_append] at he
    rcases he with ((he | he) | he) | he
    · exact handleFinishedContent_block _ _ e he
    · exact handleFinishedToolCall_block _ _ _ e he
    · exact handleTextDelta_block _ _ e he
    · exact handleToolCallDeltas_block _ _ e he

/-- Whichever way the loop ends, what it sent on `Events` are block events with
indices in order. -/
theorem streamLoop_events (um : String → Option Arguments) (cs : List Chunk) :
    ∀ st : LoopState,
      (∀ e ∈ sentEvents (streamLoop um st cs).1, isBlockEvent e = true) ∧
      indexedFrom st.currentContentIndex (sentEvents (streamLoop um st cs).1) := by
  induction cs with
  | nil => intro st; simp [streamLoop, sentEvents, indexedFrom]
  | cons c cs ih =>
    intro st
    by_cases hc : c.AddChunk = false
    · simp [streamLoop, hc, sentEvents, indexedFrom]
    · have h1 := processChunk_block um st c
      have h2 := processChunk_indexed um st c
      have h3 := ih (processChunk um st c).1
      have hc2 : c.AddChunk = true := by simpa using hc
      have hstep : sentEvents (streamLoop um st (c :: cs)).1 =
          (processChunk um st c).2 ++
            sentEvents (streamLoop um (processChunk um st c).1 cs).1 := by
        simp [streamLoop, hc2, sentEvents_append, sentEvents_map]
      rw [hstep]
      refine ⟨?_, ?_⟩
      · intro e he
        rcases List.mem_append.1 he with he | he
        · exact h1 e he
        · exact h3.1 e he
      · refine (indexedFrom_append _ _ _).2 ⟨h2.1, ?_⟩
        rw [← h2.2]
        exact h3.2

/-- The shape of every run in which the client exists: `EventStart`, then what
the loop does, then what follows the loop (nothing after a refused chunk). -/
theorem Stream_shape (unmarshal : String → Option Arguments) (now : Nat) (p : Provider)
    (s : ChunkStream) (ctxErr : Option GoError) (c : Client)
    (hclient : p.getClient.1 = .ok c) :
    ∃ tail : List ChanOp,
      p.Stream unmarshal now s ctxErr =
        ChanOp.sendEvents .EventStart ::
          ((streamLoop unmarshal (initialState now p) s.chunks).1 ++ tail) ∧
      (∀ e ∈ sentEvents tail, isDone e = true) := by
  unfold Provider.Stream
  simp only [hclient]
  cases hr : (streamLoop unmarshal (initialState now p) s.chunks).2 with
  | none => exact ⟨[], by simp, by simp [sentEvents]⟩
  | some st1 =>
    refine ⟨finish st1 s.Err ctxErr, by simp, ?_⟩
    cases hs : s.Err <;> cases hctx : ctxErr <;> simp [finish, Close, sentEvents, isDone]

theorem block_not_start (e : AssistantMessageEvent) (h : isBlockEvent e = true) :
    isEventStart e = false := by
  cases e <;> simp [isBlockEvent, isEventStart] at *

theorem done_not_start (e : AssistantMessageEvent) (h : isDone e = true) :
    isEventStart e = false := by
  cases e <;> simp [isDone, isEventStart] at *

theorem countP_eq_zero_of_forall (q : AssistantMessageEvent → Bool)
    (l : List AssistantMessageEvent) (h : ∀ e ∈ l, q e = false) : l.countP q = 0 := by
  induction l with
  | nil => rfl
  | cons x xs ih =>
    rw [List.countP_cons, ih (fun e he => h e (List.mem_cons_of_mem _ he)),
      h x (List.mem_cons_self _ _)]
    rfl

/-- C11: once the client exists, `Provider.Stream` begins, for every chunk
stream and before anything the loop does with a chunk, by sending `EventStart`
on `Events`; no other event of the run is an `EventStart`. -/
theorem Stream_starts_with_EventStart (unmarshal : String → Option Arguments) (now : Nat)
    (p : Provider) (s : ChunkStream) (ctxErr : Option GoError) (c : Client)
    (hclient : p.getClient.1 = .ok c) :
    (∃ rest : List ChanOp,
      p.Stream unmarshal now s ctxErr = ChanOp.sendEvents .EventStart :: rest ∧
      ∀ e ∈ sentEvents rest, isEventStart e = false) ∧
    (sentEvents (p.Stream unmarshal now s ctxErr)).head? = some .EventStart ∧
    (sentEvents (p.Stream unmarshal now s ctxErr)).countP isEventStart = 1 := by
  obtain ⟨tail, heq, htail⟩ := Stream_shape unmarshal now p s ctxErr c hclient
  have hloop := (streamLoop_events unmarshal s.chunks (initialState now p)).1
  have hrest : ∀ e ∈ sentEvents ((streamLoop unmarshal (initialState now p) s.chunks).1 ++ tail),
      isEventStart e = false := by
    intro e he
    rw [sentEvents_append] at he
    rcases List.mem_append.1 he with he | he
    · exact block_not_start e (hloop e he)
    · exact done_not_start e (htail e he)
  refine ⟨⟨_, heq, hrest⟩, ?_, ?_⟩
  · rw [heq]; rfl
  · rw [heq]
    simp only [sentEvents, List.countP_cons, isEventStart]
    rw [countP_eq_zero_of_forall _ _ hrest]
    rfl

/-- The run of `helloStream`: `EventStart` is the first operation. -/
theorem Stream_starts_with_EventStart_witness :
    (∃ rest : List ChanOp,
      sampleProvider.Stream sampleUnmarshal 0 helloStream none =
        ChanOp.sendEvents .EventStart :: rest ∧
      ∀ e ∈ sentEvents rest, isEventStart e = false) ∧
    (sentEvents (sampleProvider.Stream sampleUnmarshal 0 helloStream none)).head? =
      some .EventStart ∧
    (sentEvents (sampleProvider.Stream sampleUnmarshal 0 helloStream none)).countP
      isEventStart = 1 :=
  Stream_starts_with_EventStart sampleUnmarshal 0 sampleProvider helloStream none sampleClient
    (by rfl)

/-! ### The stop reason -/

theorem updateStopReason_stopReason (st : LoopState) (ch : Chunk) :
    (updateStopReason st ch).output.StopReason =
      (match chunkFinishReason ch with
       | some r => stopReasonFromOpenAI r
       | none => st.output.StopReason) := by
  unfold updateStopReason chunkFinishReason
  split
  · split <;> simp
  · simp

theorem handleFinishedContent_stopReason (st : LoopState) (ch : Chunk) :
    (handleFinishedContent st ch).1.output.StopReason = st.output.StopReason := by
  unfold handleFinishedContent
  split <;> rfl

theorem handleFinishedToolCall_stopReason (um : String → Option Arguments) (st : LoopState)
    (ch : Chunk) :
    (handleFinishedToolCall um st ch).1.output.StopReason = st.output.StopReason := by
  unfold handleFinishedToolCall
  split <;> rfl

/-- One loop iteration records the finish reason of the chunk, if it carries
one, and otherwise leaves the stop reason as it was. -/
theorem processChunk_stopReason (um : String → Option Arguments) (st : LoopState) (ch : Chunk) :
    (processChunk um st ch).1.output.StopReason =
      (match chunkFinishReason ch with
       | some r => stopReasonFromOpenAI r
       | none => st.output.StopReason) := by
  rw [processChunk_output, handleFinishedToolCall_stopReason, handleFinishedContent_stopReason,
    updateStopReason_stopReason]

theorem runChunks_stopReason (um : String → Option Arguments) (cs : List Chunk) :
    ∀ st : LoopState, (runChunks um st cs).1.output.StopReason =
      (match lastFinishReason cs with
       | some r => stopReasonFromOpenAI r
       | none => st.output.StopReason) := by
  induction cs with
  | nil => intro st; rfl
  | cons c cs ih =>
    intro st
    simp only [runChunks, lastFinishReason]
    rw [ih, processChunk_stopReason]
    cases lastFinishReason cs <;> rfl

theorem lastFinishReason_none (cs : List Chunk) (h : ∀ ch ∈ cs, chunkFinishReason ch = none) :
    lastFinishReason cs = none := by
  induction cs with
  | nil => rfl
  | cons c cs ih =>
    simp only [lastFinishReason]
    rw [ih (fun x hx => h x (List.mem_cons_of_mem _ hx)), h c (List.mem_cons_self _ _)]

theorem lastFinishReason_split (pre : List Chunk) (ch : Chunk) (post : List Chunk) (r : String)
    (hch : chunkFinishReason ch = some r) (hpost : ∀ x ∈ post, chunkFinishReason x = none) :
    lastFinishReason (pre ++ ch :: post) = some r := by
  induction pre with
  | nil => simp [lastFinishReason, lastFinishReason_none post hpost, hch]
  | cons x xs ih => simp [lastFinishReason, ih]

/-- C12, as stated, fails: a stream of one text delta that ends naturally
carries no finish reason, and the stop reason of `EventDone` and of the message
on `Result` is the empty string, not `StopReasonUnknown`. -/
theorem shortStream_stop_reason_is_empty :
    (sentResults (sampleProvider.Stream sampleUnmarshal 0 shortStream none)).map
      (·.StopReason) = [""] ∧
    (sentEvents (sampleProvider.Stream sampleUnmarshal 0 shortStream none)).getLast? =
      some (.EventDone ""
        { Contents := [], Timestamp := 0, Provider := "openai", ErrorMessage := none,
          StopReason := "" }) ∧
    ("" : StopReason) ≠ StopReasonUnknown := by
  decide

/-- C12, amended: when no chunk of a naturally ending stream carries a finish
reason, the stop reason of the message on `Result` and of `EventDone` is the
empty string, the zero value of `StopReason`. -/
theorem Stream_stop_reason_never_recorded (unmarshal : String → Option Arguments) (now : Nat)
    (p : Provider) (s : ChunkStream) (c : Client) (hclient : p.getClient.1 = .ok c)
    (hacc : ∀ ch ∈ s.chunks, ch.AddChunk = true) (hsrc : s.Err = none)
    (hnone : ∀ ch ∈ s.chunks, chunkFinishReason ch = none) :
    ∃ m : AssistantMessage,
      sentResults (p.Stream unmarshal now s none) = [m] ∧
      (sentEvents (p.Stream unmarshal now s none)).getLast? = some (.EventDone "" m) ∧
      m.StopReason = "" := by
  have hev := Stream_success_events unmarshal now p s c hclient hacc hsrc
  have hsr : (runChunks unmarshal (initialState now p) s.chunks).1.output.StopReason = "" := by
    rw [runChunks_stopReason, lastFinishReason_none s.chunks hnone]
    rfl
  refine ⟨_, hev.2, ?_, hsr⟩
  rw [hev.1, hsr, ← List.cons_append, List.getLast?_append]
  rfl

/-- The run of `shortStream`, whose one chunk carries no finish reason. -/
theorem Stream_stop_reason_never_recorded_witness :
    ∃ m : AssistantMessage,
      sentResults (sampleProvider.Stream sampleUnmarshal 0 shortStream none) = [m] ∧
      (sentEvents (sampleProvider.Stream sampleUnmarshal 0 shortStream none)).getLast? =
        some (.EventDone "" m) ∧
      m.StopReason = "" :=
  Stream_stop_reason_never_recorded sampleUnmarshal 0 sampleProvider shortStream sampleClient
    (by rfl) (by decide) (by decide) (by decide)

/-- C13: on a naturally ending stream the stop reason of the message on `Result`
is `stopReasonFromOpenAI` of the finish reason of the last chunk that carries
one (a chunk carries the finish reason of `Choices[0]` when it has a choice and
the reason is not empty), whatever the chunks before it recorded; and a loop
iteration over a chunk that carries none leaves the stop reason unchanged. -/
theorem Stream_stop_reason_last_write_wins (unmarshal : String → Option Arguments) (now : Nat)
    (p : Provider) (s : ChunkStream) (c : Client) (hclient : p.getClient.1 = .ok c)
    (hacc : ∀ ch ∈ s.chunks, ch.AddChunk = true) (hsrc : s.Err = none)
    (pre : List Chunk) (ch : Chunk) (post : List Chunk) (r : String)
    (hsplit : s.chunks = pre ++ ch :: post) (hch : chunkFinishReason ch = some r)
    (hpost : ∀ x ∈ post, chunkFinishReason x = none) :
    (∃ m : AssistantMessage,
      sentResults (p.Stream unmarshal now s none) = [m] ∧
      m.StopReason = stopReasonFromOpenAI r) ∧
    (∀ (st : LoopState) (x : Chunk), chunkFinishReason x = none →
      (processChunk unmarshal st x).1.output.StopReason = st.output.StopReason) := by
  refine ⟨⟨_, (Stream_success_events unmarshal now p s c hclient hacc hsrc).2, ?_⟩, ?_⟩
  · rw [runChunks_stopReason, hsplit, lastFinishReason_split pre ch post r hch hpost]
  · intro st x hx
    rw [processChunk_stopReason, hx]

/-- The run of `helloStream`: its last chunk carries the finish reason "stop". -/
theorem Stream_stop_reason_last_write_wins_witness :
    (∃ m : AssistantMessage,
      sentResults (sampleProvider.Stream sampleUnmarshal 0 helloStream none) = [m] ∧
      m.StopReason = stopReasonFromOpenAI "stop") ∧
    (∀ (st : LoopState) (x : Chunk), chunkFinishReason x = none →
      (processChunk sampleUnmarshal st x).1.output.StopReason = st.output.StopReason) :=
  Stream_stop_reason_last_write_wins sampleUnmarshal 0 sampleProvider helloStream sampleClient
    (by rfl) (by decide) (by decide)
    [textChunk "Hello, ", textChunk "world"] (finishChunk "stop" ("Hello, world", true) none) []
    "stop" (by decide) (by decide) (by decide)

/-! ### The two scenarios -/

/-- C14: for two text deltas "Hello, " and "world" followed by the finish
reason "stop", on which the accumulator reports the text "Hello, world" as
finished, and a natural end, the events are exactly `EventStart`,
`EventTextStart` 0, the two `EventTextDelta` 0, `EventTextEnd` 0 with
"Hello, world" and `EventDone` with `StopReasonStop`; the message on `Result`,
the one of `EventDone`, has the one content item `TextContent "Hello, world"`
and stop reason `StopReasonStop`. -/
theorem Stream_hello_scenario (unmarshal : String → Option Arguments) (now : Nat)
    (p : Provider) (c : Client) (hclient : p.getClient.1 = .ok c) :
    sentEvents (p.Stream unmarshal now helloStream none) =
      [.EventStart,
       .EventTextStart 0 (initialState now p).output,
       .EventTextDelta 0 "Hello, " (initialState now p).output,
       .EventTextDelta 0 "world" (initialState now p).output,
       .EventTextEnd 0 "Hello, world"
         { (initialState now p).output with StopReason := StopReasonStop },
       .EventDone StopReasonStop
         { (initialState now p).output with
           StopReason := StopReasonStop, Contents := [.TextContent "Hello, world"] }] ∧
    sentResults (p.Stream unmarshal now helloStream none) =
      [{ (initialState now p).output with
         StopReason := StopReasonStop, Contents := [.TextContent "Hello, world"] }] := by
  have hacc : ∀ ch ∈ helloStream.chunks, ch.AddChunk = true := by decide
  have hev := Stream_success_events unmarshal now p helloStream c hclient hacc rfl
  rw [hev.1, hev.2]
  simp [helloStream, runChunks, processChunk, updateStopReason, handleFinishedContent,
    handleFinishedToolCall, handleTextDelta, handleToolCallDeltas, textChunk, finishChunk,
    initialState, stopReasonFromOpenAI, StopReasonStop]

/-- The scenario run with `sampleProvider`. -/
theorem Stream_hello_scenario_witness :
    sentEvents (sampleProvider.Stream sampleUnmarshal 0 helloStream none) =
      [.EventStart,
       .EventTextStart 0 (initialState 0 sampleProvider).output,
       .EventTextDelta 0 "Hello, " (initialState 0 sampleProvider).output,
       .EventTextDelta 0 "world" (initialState 0 sampleProvider).output,
       .EventTextEnd 0 "Hello, world"
         { (initialState 0 sampleProvider).output with StopReason := StopReasonStop },
       .EventDone StopReasonStop
         { (initialState 0 sampleProvider).output with
           StopReason := StopReasonStop, Contents := [.TextContent "Hello, world"] }] ∧
    sentResults (sampleProvider.Stream sampleUnmarshal 0 helloStream none) =
      [{ (initialState 0 sampleProvider).output with
         StopReason := StopReasonStop, Contents := [.TextContent "Hello, world"] }] :=
  Stream_hello_scenario sampleUnmarshal 0 sampleProvider sampleClient (by rfl)

/-- C15: for two tool call deltas of call "t1" (name "getWeather", argument
text in two parts) followed by the finish reason "tool_calls", on which the
accumulator reports the call as finished with the whole argument text, and a
natural end, the events are `EventStart`, `EventToolcallStart` 0, the two
`EventToolcallDelta` 0, `EventToolcallEnd` 0 with the tool call whose arguments
are what `json.Unmarshal` decodes from the whole text, and `EventDone` with
`StopReasonToolUse`. -/
theorem Stream_tool_call_scenario (unmarshal : String → Option Arguments) (now : Nat)
    (p : Provider) (c : Client) (args : Arguments) (hclient : p.getClient.1 = .ok c)
    (hdecode : unmarshal "\x7b\"location\":\"Tokyo\"\x7d" = some args) :
    sentEvents (p.Stream unmarshal now tokyoStream none) =
      [.EventStart,
       .EventToolcallStart 0 (initialState now p).output,
       .EventToolcallDelta 0 "\x7b\"location\":" (initialState now p).output,
       .EventToolcallDelta 0 "\"Tokyo\"\x7d" (initialState now p).output,
       .EventToolcallEnd 0 { ID := "t1", Name := "getWeather", Arguments := args }
         { (initialState now p).output with StopReason := StopReasonToolUse },
       .EventDone StopReasonToolUse
         { (initialState now p).output with
           StopReason := StopReasonToolUse
           Contents := [.ToolCall { ID := "t1", Name := "getWeather", Arguments := args }] }] := by
  have hacc : ∀ ch ∈ tokyoStream.chunks, ch.AddChunk = true := by decide
  have hev := Stream_success_events unmarshal now p tokyoStream c hclient hacc rfl
  rw [hev.1]
  simp [tokyoStream, tokyoDelta1, tokyoDelta2, tokyoFinish, runChunks, processChunk,
    updateStopReason, handleFinishedContent, handleFinishedToolCall, resolveToolCall,
    handleTextDelta, handleToolCallDeltas, handleToolCallDelta, toolChunk, finishChunk,
    initialState, stopReasonFromOpenAI, StopReasonToolUse, hdecode]

/-- The scenario run with `sampleProvider` and `sampleUnmarshal`, which decodes
the argument text to the one pair "location", "Tokyo". -/
theorem Stream_tool_call_scenario_witness :
    sentEvents (sampleProvider.Stream sampleUnmarshal 0 tokyoStream none) =
      [.EventStart,
       .EventToolcallStart 0 (initialState 0 sampleProvider).output,
       .EventToolcallDelta 0 "\x7b\"location\":" (initialState 0 sampleProvider).output,
       .EventToolcallDelta 0 "\"Tokyo\"\x7d" (initialState 0 sampleProvider).output,
       .EventToolcallEnd 0
         { ID := "t1", Name := "getWeather", Arguments := [("location", "\"Tokyo\"")] }
         { (initialState 0 sampleProvider).output with StopReason := StopReasonToolUse },
       .EventDone StopReasonToolUse
         { (initialState 0 sampleProvider).output with
           StopReason := StopReasonToolUse
           Contents := [.ToolCall { ID := "t1", Name := "getWeather",
                                    Arguments := [("location", "\"Tokyo\"")] }] }] :=
  Stream_tool_call_scenario sampleUnmarshal 0 sampleProvider sampleClient
    [("location", "\"Tokyo\"")] (by rfl) (by decide)

/-! ### Index assignment -/

/-- C16: in every run the `ContentIndex` of a Start event (`EventTextStart` or
`EventToolcallStart`) is the number of Start events sent before it, so the
Start indices are 0, 1, 2, ... in the order sent; and a loop iteration never
lowers `currentContentIndex`. -/
theorem Stream_start_indices (unmarshal : String → Option Arguments) (now : Nat)
    (p : Provider) (s : ChunkStream) (ctxErr : Option GoError) :
    (∀ (pre : List AssistantMessageEvent) (e : AssistantMessageEvent)
        (post : List AssistantMessageEvent) (k : Int),
        sentEvents (p.Stream unmarshal now s ctxErr) = pre ++ e :: post →
        startIndex e = some k → k = (pre.countP isStart : Nat)) ∧
    (∀ (st : LoopState) (ch : Chunk),
        st.currentContentIndex ≤ (processChunk unmarshal st ch).1.currentContentIndex) := by
  constructor
  · intro pre e post k hsplit hk
    have hidx : indexedFrom (-1) (sentEvents (p.Stream unmarshal now s ctxErr)) := by
      cases hg : p.getClient.1 with
      | error err => simp [Provider.Stream, hg, sentEvents, indexedFrom]
      | ok c =>
        obtain ⟨tail, heq, htail⟩ := Stream_shape unmarshal now p s ctxErr c hg
        rw [heq]
        simp only [sentEvents, sentEvents_append, indexedFrom]
        refine (indexedFrom_append _ _ _).2
          ⟨(streamLoop_events unmarshal s.chunks (initialState now p)).2, ?_⟩
        generalize sentEvents tail = t at htail
        generalize (-1 : Int) + _ = j
        induction t with
        | nil => trivial
        | cons x xs ih =>
          have hx := htail x (List.mem_cons_self _ _)
          cases x <;> simp [isDone] at hx
          simp only [indexedFrom]
          exact ih (fun e he => htail e (List.mem_cons_of_mem _ he))
    rw [hsplit] at hidx
    have h2 := ((indexedFrom_append pre (-1) (e :: post)).1 hidx).2
    cases e <;> simp [startIndex] at hk <;> simp [indexedFrom] at h2 <;> omega
  · intro st ch
    have h := (processChunk_indexed unmarshal st ch).2
    omega

/-- The run of `interleavedStream`: its third Start event, the eighth event
sent, carries `ContentIndex` 2. -/
theorem Stream_start_indices_witness :
    (2 : Int) =
      (((sentEvents (sampleProvider.Stream sampleUnmarshal 0 interleavedStream none)).take
        7).countP isStart : Nat) :=
  (Stream_start_indices sampleUnmarshal 0 sampleProvider interleavedStream none).1
    ((sentEvents (sampleProvider.Stream sampleUnmarshal 0 interleavedStream none)).take 7)
    (.EventTextStart 2
      { (initialState 0 sampleProvider).output with
        Contents := [.TextContent "A",
                     .ToolCall { ID := "t1", Name := "getWeather", Arguments := [] }] })
    ((sentEvents (sampleProvider.Stream sampleUnmarshal 0 interleavedStream none)).drop 8)
    2 (by decide) (by decide)

/-! ### `stopReasonFromOpenAI` -/

/-- C20: `stopReasonFromOpenAI` maps "stop" to `StopReasonStop`, "length" to
`StopReasonLength`, "tool_calls" to `StopReasonToolUse`, "content_filter" to
`StopReasonAborted` and every other string, the empty one included, to
`StopReasonUnknown`; it is defined for every string and never returns
`StopReasonError`. -/
theorem stopReasonFromOpenAI_table :
    stopReasonFromOpenAI "stop" = StopReasonStop ∧
    stopReasonFromOpenAI "length" = StopReasonLength ∧
    stopReasonFromOpenAI "tool_calls" = StopReasonToolUse ∧
    stopReasonFromOpenAI "content_filter" = StopReasonAborted ∧
    stopReasonFromOpenAI "" = StopReasonUnknown ∧
    (∀ reason : String, reason ≠ "stop" → reason ≠ "length" → reason ≠ "tool_calls" →
      reason ≠ "content_filter" → stopReasonFromOpenAI reason = StopReasonUnknown) ∧
    (∀ reason : String,
      stopReasonFromOpenAI reason ∈
        [StopReasonStop, StopReasonLength, StopReasonToolUse, StopReasonAborted,
         StopReasonUnknown]) ∧
    (∀ reason : String, stopReasonFromOpenAI reason ≠ StopReasonError) := by
  refine ⟨by decide, by decide, by decide, by decide, by decide, ?_, ?_, ?_⟩
  · intro reason h1 h2 h3 h4
    simp [stopReasonFromOpenAI, h1, h2, h3, h4]
  · intro reason
    unfold stopReasonFromOpenAI
    split_ifs <;> simp
  · intro reason
    unfold stopReasonFromOpenAI
    split_ifs <;> decide

/-! ### The producer against a consumer -/

theorem completesSequential_events (untilDone : Bool) (evs : List AssistantMessageEvent)
    (hev : ∀ e ∈ evs, isDone e = false) (b : Bool) (ops : List ChanOp) :
    completesSequential untilDone (.draining b) (evs.map ChanOp.sendEvents ++ ops) =
      completesSequential untilDone (.draining b) ops := by
  induction evs with
  | nil => rfl
  | cons e es ih =>
    have he := hev e (List.mem_cons_self _ _)
    have hes := ih (fun x hx => hev x (List.mem_cons_of_mem _ hx))
    simpa [completesSequential, he] using hes

theorem completesConcurrent_events (evs : List AssistantMessageEvent) (c : ConcurrentConsumer)
    (hc : c.ranging = true) (ops : List ChanOp) :
    completesConcurrent c (evs.map ChanOp.sendEvents ++ ops) = completesConcurrent c ops := by
  induction evs with
  | nil => rfl
  | cons e es ih => simpa [completesConcurrent, hc] using ih

/-- C19, as stated, fails: against one consumer that first ranges over `Events`
until it is closed and only then receives from `Result`, the producer of the
naturally ending `helloStream` gets through its first six operations, the sends
on `Events`, and then stays blocked at the send on `Result`, which comes before
the close of `Events`. -/
theorem helloStream_blocks_sequential_consumer :
    completesSequential false (.draining false)
      (sampleProvider.Stream sampleUnmarshal 0 helloStream none) = false ∧
    completesSequential false (.draining false)
      ((sampleProvider.Stream sampleUnmarshal 0 helloStream none).take 6) = true ∧
    (sampleProvider.Stream sampleUnmarshal 0 helloStream none).drop 6 =
      [.sendResult
         { (initialState 0 sampleProvider).output with
           StopReason := StopReasonStop, Contents := [.TextContent "Hello, world"] },
       .closeEvents, .closeResult, .closeErr] := by
  decide

/-- C19, amended: on a naturally ending stream the producer gets through all of
its operations against one consumer that receives from `Events` up to and
including `EventDone` and only then receives from `Result`, and against a
consumer that ranges over `Events` in one goroutine while another receives from
`Result`; against one consumer that ranges over `Events` until it is closed
before it receives from `Result` it never does. -/
theorem Stream_natural_end_consumers (unmarshal : String → Option Arguments) (now : Nat)
    (p : Provider) (s : ChunkStream) (c : Client) (hclient : p.getClient.1 = .ok c)
    (hacc : ∀ ch ∈ s.chunks, ch.AddChunk = true) (hsrc : s.Err = none) :
    completesSequential true (.draining false) (p.Stream unmarshal now s none) = true ∧
    completesConcurrent { ranging := true, awaiting := true }
      (p.Stream unmarshal now s none) = true ∧
    completesSequential false (.draining false) (p.Stream unmarshal now s none) = false := by
  rw [Stream_accepted unmarshal now p s none c hclient hacc]
  have hd := runChunks_isDone unmarshal s.chunks (initialState now p)
  refine ⟨?_, ?_, ?_⟩
  · simp only [completesSequential, isDone, Bool.and_false, Bool.false_eq_true, if_false]
    rw [completesSequential_events _ _ hd]
    simp [finish, hsrc, Close, completesSequential, isDone]
  · simp only [completesConcurrent, Bool.true_and]
    rw [completesConcurrent_events _ _ rfl]
    simp [finish, hsrc, Close, completesConcurrent]
  · simp only [completesSequential, Bool.false_and, Bool.false_eq_true, if_false]
    rw [completesSequential_events _ _ hd]
    simp [finish, hsrc, Close, completesSequential]

/-- The run of `helloStream` against the three consumers. -/
theorem Stream_natural_end_consumers_witness :
    completesSequential true (.draining false)
      (sampleProvider.Stream sampleUnmarshal 0 helloStream none) = true ∧
    completesConcurrent { ranging := true, awaiting := true }
      (sampleProvider.Stream sampleUnmarshal 0 helloStream none) = true ∧
    completesSequential false (.draining false)
      (sampleProvider.Stream sampleUnmarshal 0 helloStream none) = false :=
  Stream_natural_end_consumers sampleUnmarshal 0 sampleProvider helloStream sampleClient
    (by rfl) (by decide) (by decide)

/-! ### The steps of one loop iteration -/

theorem processChunk_events_head (um : String → Option Arguments) (st : LoopState)
    (ch : Chunk) :
    ∃ rest, (processChunk um st ch).2 =
      (handleFinishedContent (updateStopReason st ch) ch).2 ++
        (handleFinishedToolCall um (handleFinishedContent (updateStopReason st ch) ch).1 ch).2 ++
        rest := by
  unfold processChunk
  split
  · exact ⟨[], (List.append_nil _).symm⟩
  · exact ⟨_ ++ _, List.append_assoc _ _ _⟩

/-- C21: on a chunk for which the accumulator reports the non-empty finished
text `c`, the step of lines 111-122 sends `EventTextEnd` with the current index
and `c`, appends `TextContent c` as the last item of `Contents`, sets the block
type to none and leaves the index; that event is the first event of the loop
iteration.  When the reported text is empty the step sends nothing and changes
nothing. -/
theorem step_finished_text (unmarshal : String → Option Arguments) (st : LoopState)
    (chunk : Chunk) (c : String) (hrep : chunk.JustFinishedContent = (c, true))
    (hne : c ≠ "") :
    handleFinishedContent st chunk =
      ({ output := { st.output with Contents := st.output.Contents ++ [.TextContent c] },
         currentContentIndex := st.currentContentIndex,
         currentBlockType := "" },
       [.EventTextEnd st.currentContentIndex c st.output]) ∧
    (∃ rest, (processChunk unmarshal st chunk).2 =
      .EventTextEnd st.currentContentIndex c (updateStopReason st chunk).output :: rest) ∧
    (∀ (st0 : LoopState) (chunk0 : Chunk), chunk0.JustFinishedContent.1 = "" →
      handleFinishedContent st0 chunk0 = (st0, [])) := by
  have hstep : ∀ s : LoopState, handleFinishedContent s chunk =
      ({ output := { s.output with Contents := s.output.Contents ++ [.TextContent c] },
         currentContentIndex := s.currentContentIndex,
         currentBlockType := "" },
       [.EventTextEnd s.currentContentIndex c s.output]) := by
    intro s
    simp [handleFinishedContent, hrep, hne]
  refine ⟨hstep st, ?_, ?_⟩
  · obtain ⟨rest, hrest⟩ := processChunk_events_head unmarshal st chunk
    rw [hstep, updateStopReason_index] at hrest
    simp only [List.cons_append, List.nil_append] at hrest
    exact ⟨_, hrest⟩
  · intro st0 chunk0 h0
    simp [handleFinishedContent, h0]

/-- The step on `closingToolChunk` in a text block with index 0. -/
theorem step_finished_text_witness :
    handleFinishedContent inTextBlock closingToolChunk =
      ({ output := { inTextBlock.output with
           Contents := inTextBlock.output.Contents ++ [.TextContent "A"] },
         currentContentIndex := inTextBlock.currentContentIndex,
         currentBlockType := "" },
       [.EventTextEnd inTextBlock.currentContentIndex "A" inTextBlock.output]) ∧
    (∃ rest, (processChunk sampleUnmarshal inTextBlock closingToolChunk).2 =
      .EventTextEnd inTextBlock.currentContentIndex "A"
        (updateStopReason inTextBlock closingToolChunk).output :: rest) ∧
    (∀ (st0 : LoopState) (chunk0 : Chunk), chunk0.JustFinishedContent.1 = "" →
      handleFinishedContent st0 chunk0 = (st0, [])) :=
  step_finished_text sampleUnmarshal inTextBlock closingToolChunk "A" (by decide) (by decide)

/-- C22: on a chunk for which the accumulator reports a finished tool call whose
argument text `json.Unmarshal` decodes to `o`, the step of lines 124-142 sends
`EventToolcallEnd` with the current index and the tool call with that id, name
and `o`, appends the same tool call as the last item of `Contents` and sets the
block type to none; the loop iteration sends that event. -/
theorem step_finished_tool_call (unmarshal : String → Option Arguments) (st : LoopState)
    (chunk : Chunk) (toolCall : FinishedToolCall) (o : Arguments)
    (hfin : chunk.JustFinishedToolCall = some toolCall)
    (hparse : unmarshal toolCall.Arguments = some o) :
    handleFinishedToolCall unmarshal st chunk =
      ({ output := { st.output with
           Contents := st.output.Contents ++
             [.ToolCall { ID := toolCall.ID, Name := toolCall.Name, Arguments := o }] },
         currentContentIndex := st.currentContentIndex,
         currentBlockType := "" },
       [.EventToolcallEnd st.currentContentIndex
          { ID := toolCall.ID, Name := toolCall.Name, Arguments := o } st.output]) ∧
    AssistantMessageEvent.EventToolcallEnd
        (handleFinishedContent (updateStopReason st chunk) chunk).1.currentContentIndex
        { ID := toolCall.ID, Name := toolCall.Name, Arguments := o }
        (handleFinishedContent (updateStopReason st chunk) chunk).1.output
      ∈ (processChunk unmarshal st chunk).2 := by
  have hstep : ∀ s : LoopState, handleFinishedToolCall unmarshal s chunk =
      ({ output := { s.output with
           Contents := s.output.Contents ++
             [.ToolCall { ID := toolCall.ID, Name := toolCall.Name, Arguments := o }] },
         currentContentIndex := s.currentContentIndex,
         currentBlockType := "" },
       [.EventToolcallEnd s.currentContentIndex
          { ID := toolCall.ID, Name := toolCall.Name, Arguments := o } s.output]) := by
    intro s
    simp [handleFinishedToolCall, resolveToolCall, hfin, hparse]
  refine ⟨hstep st, ?_⟩
  obtain ⟨rest, hrest⟩ := processChunk_events_head unmarshal st chunk
  rw [hrest, hstep]
  simp

/-- The step on the finish chunk of the tool call scenario, after its two
deltas. -/
theorem step_finished_tool_call_witness :
    handleFinishedToolCall sampleUnmarshal (openToolCallBlock (initialState 0 sampleProvider))
        tokyoFinish =
      ({ output := { (initialState 0 sampleProvider).output with
           Contents := [.ToolCall { ID := "t1", Name := "getWeather",
                                    Arguments := [("location", "\"Tokyo\"")] }] },
         currentContentIndex := 0,
         currentBlockType := "" },
       [.EventToolcallEnd 0
          { ID := "t1", Name := "getWeather", Arguments := [("location", "\"Tokyo\"")] }
          (initialState 0 sampleProvider).output]) :=
  (step_finished_tool_call sampleUnmarshal (openToolCallBlock (initialState 0 sampleProvider))
    tokyoFinish
    { ID := "t1", Name := "getWeather", Arguments := "\x7b\"location\":\"Tokyo\"\x7d" }
    [("location", "\"Tokyo\"")] (by decide) (by decide)).1

/-- C23: for a non-empty text delta `d` the step of lines 150-166, in a state
whose block type is not text, raises the index by one, sets the block type to
text and sends `EventTextStart` and then `EventTextDelta` with `d`, both with
the new index; in a state whose block type is text it sends the one
`EventTextDelta` with the index as it is and changes nothing.  For an empty
text delta it sends nothing and changes nothing. -/
theorem step_text_delta (st : LoopState) (d : String) (hd : d ≠ "") :
    (st.currentBlockType ≠ "text" →
      handleTextDelta st d =
        ({ output := st.output,
           currentContentIndex := st.currentContentIndex + 1,
           currentBlockType := "text" },
         [.EventTextStart (st.currentContentIndex + 1) st.output,
          .EventTextDelta (st.currentContentIndex + 1) d st.output])) ∧
    (st.currentBlockType = "text" →
      handleTextDelta st d = (st, [.EventTextDelta st.currentContentIndex d st.output])) ∧
    handleTextDelta st "" = (st, []) := by
  refine ⟨?_, ?_, ?_⟩
  · intro h; simp [handleTextDelta, hd, h]
  · intro h; simp [handleTextDelta, hd, h]
  · simp [handleTextDelta]

/-- The step for the delta "B" in the initial state and in a text block. -/
theorem step_text_delta_witness :
    handleTextDelta (initialState 0 sampleProvider) "B" =
      ({ output := (initialState 0 sampleProvider).output,
         currentContentIndex := 0, currentBlockType := "text" },
       [.EventTextStart 0 (initialState 0 sampleProvider).output,
        .EventTextDelta 0 "B" (initialState 0 sampleProvider).output]) ∧
    handleTextDelta inTextBlock "B" =
      (inTextBlock, [.EventTextDelta 0 "B" inTextBlock.output]) :=
  ⟨(step_text_delta (initialState 0 sampleProvider) "B" (by decide)).1 (by decide),
   (step_text_delta inTextBlock "B" (by decide)).2.1 (by decide)⟩

/-- Inside a tool call block the loop over the tool call deltas opens nothing:
it sends one `EventToolcallDelta` for each delta with argument text. -/
theorem handleToolCallDeltas_in_block (ds : List ToolCallDelta) (st : LoopState)
    (h : st.currentBlockType = "toolCall") :
    handleToolCallDeltas st ds = (st, argumentDeltaEvents st ds) := by
  induction ds with
  | nil => rfl
  | cons d ds ih =>
    by_cases hd : d.Arguments = ""
    · simp [handleToolCallDeltas, handleToolCallDelta, h, hd, ih, argumentDeltaEvents,
        withArguments]
    · simp [handleToolCallDeltas, handleToolCallDelta, h, hd, ih, argumentDeltaEvents,
        withArguments]

/-- Outside a tool call block the first tool call delta opens one, and the loop
goes on inside it. -/
theorem handleToolCallDeltas_new_block (ds : List ToolCallDelta) (st : LoopState)
    (h : st.currentBlockType ≠ "toolCall") (hne : ds ≠ []) :
    handleToolCallDeltas st ds =
      (openToolCallBlock st,
       .EventToolcallStart (st.currentContentIndex + 1) st.output ::
         argumentDeltaEvents (openToolCallBlock st) ds) := by
  cases ds with
  | nil => exact absurd rfl hne
  | cons d ds =>
    have hin := handleToolCallDeltas_in_block ds (openToolCallBlock st) rfl
    by_cases hd : d.Arguments = ""
    · have h1 : handleToolCallDelta st d =
          (openToolCallBlock st, [.EventToolcallStart (st.currentContentIndex + 1) st.output]) := by
        simp [handleToolCallDelta, h, hd, openToolCallBlock]
      rw [handleToolCallDeltas, h1]
      simp only [hin]
      simp [argumentDeltaEvents, withArguments, hd]
    · have h1 : handleToolCallDelta st d =
          (openToolCallBlock st,
           [.EventToolcallStart (st.currentContentIndex + 1) st.output,
            .EventToolcallDelta (st.currentContentIndex + 1) d.Arguments st.output]) := by
        simp [handleToolCallDelta, h, hd, openToolCallBlock]
      rw [handleToolCallDeltas, h1]
      simp only [hin]
      simp [argumentDeltaEvents, withArguments, hd, openToolCallBlock]

theorem argumentDeltaEvents_no_start (st : LoopState) (ds : List ToolCallDelta) :
    (argumentDeltaEvents st ds).countP isToolcallStart = 0 := by
  unfold argumentDeltaEvents
  induction withArguments ds with
  | nil => rfl
  | cons x xs ih => simp [List.countP_cons, isToolcallStart, ih]

theorem argumentDeltaEvents_deltas (st : LoopState) (ds : List ToolCallDelta) :
    toolcallDeltas (argumentDeltaEvents st ds) =
      (withArguments ds).map fun d => (st.currentContentIndex, d.Arguments) := by
  unfold argumentDeltaEvents toolcallDeltas
  induction withArguments ds with
  | nil => rfl
  | cons x xs ih => simp [toolcallDelta, ih]

/-- C24: for one or more tool call deltas, the step of lines 168-187 in a state
whose block type is already toolCall sends no `EventToolcallStart` and leaves
the index, whatever the ids of the deltas; in a state whose block type is not
toolCall it sends exactly one `EventToolcallStart`, as its first event and with
the index raised by one, and the index stays there however many deltas follow.
Either way the block type afterwards is toolCall. -/
theorem step_tool_call_deltas_open_once (st : LoopState) (ds : List ToolCallDelta)
    (hne : ds ≠ []) :
    (st.currentBlockType = "toolCall" →
      (handleToolCallDeltas st ds).2.countP isToolcallStart = 0 ∧
      (handleToolCallDeltas st ds).1.currentContentIndex = st.currentContentIndex) ∧
    (st.currentBlockType ≠ "toolCall" →
      (handleToolCallDeltas st ds).2.countP isToolcallStart = 1 ∧
      (handleToolCallDeltas st ds).2.head? =
        some (.EventToolcallStart (st.currentContentIndex + 1) st.output) ∧
      (handleToolCallDeltas st ds).1.currentContentIndex = st.currentContentIndex + 1) ∧
    (handleToolCallDeltas st ds).1.currentBlockType = "toolCall" := by
  by_cases h : st.currentBlockType = "toolCall"
  · rw [handleToolCallDeltas_in_block ds st h]
    exact ⟨fun _ => ⟨argumentDeltaEvents_no_start st ds, rfl⟩, fun h2 => absurd h h2, h⟩
  · rw [handleToolCallDeltas_new_block ds st h hne]
    refine ⟨fun h2 => absurd h2 h, fun _ => ⟨?_, rfl, rfl⟩, rfl⟩
    simp [List.countP_cons, isToolcallStart, argumentDeltaEvents_no_start]

/-- The step for `threeDeltas`, deltas of two different calls, in the initial
state. -/
theorem step_tool_call_deltas_open_once_witness :
    (handleToolCallDeltas (initialState 0 sampleProvider) threeDeltas).2.countP
      isToolcallStart = 1 ∧
    (handleToolCallDeltas (initialState 0 sampleProvider) threeDeltas).2.head? =
      some (.EventToolcallStart 0 (initialState 0 sampleProvider).output) ∧
    (handleToolCallDeltas (initialState 0 sampleProvider) threeDeltas).1.currentContentIndex
      = 0 :=
  (step_tool_call_deltas_open_once (initialState 0 sampleProvider) threeDeltas
    (by decide)).2.1 (by decide)

/-- C25: the `EventToolcallDelta` events of the step of lines 168-187 are, in
order, one for each tool call delta whose argument text is not empty, with that
text, and none for a delta without; each carries the index the step ends
with. -/
theorem step_tool_call_deltas_arguments (st : LoopState) (ds : List ToolCallDelta) :
    toolcallDeltas (handleToolCallDeltas st ds).2 =
      (withArguments ds).map fun d =>
        ((handleToolCallDeltas st ds).1.currentContentIndex, d.Arguments) := by
  by_cases h : st.currentBlockType = "toolCall"
  · rw [handleToolCallDeltas_in_block ds st h]
    exact argumentDeltaEvents_deltas st ds
  · cases ds with
    | nil => rfl
    | cons d ds =>
      rw [handleToolCallDeltas_new_block (d :: ds) st h (List.cons_ne_nil _ _)]
      have := argumentDeltaEvents_deltas (openToolCallBlock st) (d :: ds)
      simpa [toolcallDeltas, toolcallDelta] using this

/-- C27: in any state with index `i`, a chunk for which the accumulator reports
the non-empty finished text `c` (and no finished tool call) and whose choice
carries no text delta and one tool call delta with the non-empty argument text
`a` makes the loop iteration send exactly `EventTextEnd` with `i` and `c`, then
`EventToolcallStart` with `i + 1`, then `EventToolcallDelta` with `i + 1` and
`a`; afterwards the block type is toolCall and the index `i + 1`. -/
theorem closure_then_delta (unmarshal : String → Option Arguments) (st : LoopState)
    (chunk : Chunk) (c a : String) (choice : ChunkChoice) (others : List ChunkChoice)
    (d : ToolCallDelta)
    (hrep : chunk.JustFinishedContent = (c, true)) (hc : c ≠ "")
    (hnone : chunk.JustFinishedToolCall = none)
    (hchoices : chunk.Choices = choice :: others) (htext : choice.Content = "")
    (htool : choice.ToolCalls = [d]) (hargs : a = d.Arguments) (ha : a ≠ "") :
    (processChunk unmarshal st chunk).2 =
      [.EventTextEnd st.currentContentIndex c (updateStopReason st chunk).output,
       .EventToolcallStart (st.currentContentIndex + 1)
         { (updateStopReason st chunk).output with
           Contents := (updateStopReason st chunk).output.Contents ++ [.TextContent c] },
       .EventToolcallDelta (st.currentContentIndex + 1) a
         { (updateStopReason st chunk).output with
           Contents := (updateStopReason st chunk).output.Contents ++ [.TextContent c] }] ∧
    (processChunk unmarshal st chunk).1.currentBlockType = "toolCall" ∧
    (processChunk unmarshal st chunk).1.currentContentIndex = st.currentContentIndex + 1 := by
  have hidx := updateStopReason_index st chunk
  subst hargs
  simp [processChunk, hchoices, handleFinishedContent, hrep, hc, handleFinishedToolCall, hnone,
    handleTextDelta, htext, htool, handleToolCallDeltas, handleToolCallDelta, ha, hidx]

/-- The loop iteration over `closingToolChunk` in a text block with index 0. -/
theorem closure_then_delta_witness :
    (processChunk sampleUnmarshal inTextBlock closingToolChunk).2 =
      [.EventTextEnd 0 "A" (initialState 0 sampleProvider).output,
       .EventToolcallStart 1
         { (initialState 0 sampleProvider).output with Contents := [.TextContent "A"] },
       .EventToolcallDelta 1 "\x7b\x7d"
         { (initialState 0 sampleProvider).output with Contents := [.TextContent "A"] }] ∧
    (processChunk sampleUnmarshal inTextBlock closingToolChunk).1.currentBlockType =
      "toolCall" ∧
    (processChunk sampleUnmarshal inTextBlock closingToolChunk).1.currentContentIndex = 1 :=
  closure_then_delta sampleUnmarshal inTextBlock closingToolChunk "A" "\x7b\x7d"
    { FinishReason := "", Content := "",
      ToolCalls := [{ Index := 0, ID := "t1", Name := "getWeather", Arguments := "\x7b\x7d" }] }
    [] { Index := 0, ID := "t1", Name := "getWeather", Arguments := "\x7b\x7d" }
    (by decide) (by decide) (by decide) (by decide) (by decide) (by decide) (by decide)
    (by decide)

/-! ### What the delta steps leave alone -/

theorem endItems_length (evs : List AssistantMessageEvent) :
    (endItems evs).length = evs.countP isEnd := by
  induction evs with
  | nil => rfl
  | cons e es ih =>
    cases e <;>
      simp [endItems, endItem, List.filterMap_cons, List.countP_cons, isEnd, isTextEnd,
        isToolcallEnd] <;>
      simpa [endItems] using ih

/-- C26: the text delta step and the tool call delta step leave the message
(`Contents` and `StopReason` with it) as it is, and so does the stop reason
step for `Contents`; over a loop iteration, and over any number of them,
`Contents` is what it was followed by the items of the End events sent, one
item for each End event. -/
theorem deltas_leave_message (unmarshal : String → Option Arguments) (st : LoopState)
    (chunk : Chunk) (d : String) (ds : List ToolCallDelta) (cs : List Chunk) :
    (handleTextDelta st d).1.output = st.output ∧
    (handleToolCallDeltas st ds).1.output = st.output ∧
    (updateStopReason st chunk).output.Contents = st.output.Contents ∧
    (processChunk unmarshal st chunk).1.output.Contents =
      st.output.Contents ++ endItems (processChunk unmarshal st chunk).2 ∧
    (endItems (processChunk unmarshal st chunk).2).length =
      (processChunk unmarshal st chunk).2.countP isEnd ∧
    (runChunks unmarshal st cs).1.output.Contents =
      st.output.Contents ++ endItems (runChunks unmarshal st cs).2 ∧
    (endItems (runChunks unmarshal st cs).2).length =
      (runChunks unmarshal st cs).2.countP isEnd :=
  ⟨handleTextDelta_output st d, handleToolCallDeltas_output ds st,
   updateStopReason_contents st chunk, processChunk_contents unmarshal st chunk,
   endItems_length _, runChunks_contents unmarshal cs st, endItems_length _⟩

/-! ### `getClient` -/

theorem getClient_cached (p : Provider) (c : Client) (h : p.client = some c) :
    p.getClient = (.ok c, p) := by
  simp [Provider.getClient, h]

theorem getClient_ok_caches (p : Provider) (c : Client) (h : p.getClient.1 = .ok c) :
    p.getClient.2.client = some c := by
  unfold Provider.getClient at h ⊢
  cases hc : p.client with
  | some c0 =>
    simp only [hc] at h ⊢
    injection h with h
    rw [h]
  | none =>
    simp only [hc] at h ⊢
    by_cases hk : p.config.APIKey = ""
    · simp [hk] at h
    · simp only [hk, if_false] at h ⊢
      injection h with h
      rw [h]

theorem afterGetClientCalls_cached (n : Nat) :
    ∀ (p : Provider) (c : Client), p.client = some c → afterGetClientCalls n p = p := by
  induction n with
  | zero => intro p c _; rfl
  | succ n ih =>
    intro p c h
    rw [afterGetClientCalls, getClient_cached p c h]
    exact ih p c h

/-- What `getClient` does when no client is stored and the API key is set: it
creates the client with the key, and with the base URL when there is one, and
stores it. -/
theorem getClient_creates (q : Provider) (hc : q.client = none) (hk : q.config.APIKey ≠ "") :
    q.getClient =
      (.ok { opts := [RequestOption.WithAPIKey q.config.APIKey] ++
               if q.config.URL ≠ "" then [RequestOption.WithBaseURL q.config.URL] else [] },
       { q with
         client := some
           { opts := [RequestOption.WithAPIKey q.config.APIKey] ++
               if q.config.URL ≠ "" then [RequestOption.WithBaseURL q.config.URL] else [] } }) := by
  unfold Provider.getClient
  by_cases hu : q.config.URL = "" <;> simp [hc, hk, hu]

/-- A successful `getClient` leaves the provider with the returned client stored
and nothing else changed. -/
theorem getClient_ok_stores (q : Provider) (c : Client) (h : q.getClient.1 = .ok c) :
    q.getClient.2 = { q with client := some c } := by
  cases hc : q.client with
  | some c0 =>
    rw [getClient_cached q c0 hc] at h ⊢
    injection h with h
    subst h
    cases q
    simp only [Provider.mk.injEq, true_and]
    exact hc
  | none =>
    by_cases hk : q.config.APIKey = ""
    · simp [Provider.getClient, hc, hk] at h
    · rw [getClient_creates q hc hk] at h ⊢
      injection h with h
      subst h
      rfl

/-- C28: with an empty API key and no client cached, `Provider.Stream` performs
one channel operation, the send on `Err` of "failed to create client" wrapping
"API key is required": nothing on `Events`, nothing on `Result`.  For every
provider `getClient` fails exactly when the API key is empty and no client is
cached, with the error "API key is required" and the provider left as it was.
When it succeeds it stores the returned client in the provider and changes
nothing else; a stored client is returned as it is, whatever the configuration,
and the provider stays as it is, so every later call returns that client; with
no client stored and a key set, the client is created with the key and the base
URL, if any. -/
theorem Stream_without_api_key (unmarshal : String → Option Arguments) (now : Nat)
    (p : Provider) (s : ChunkStream) (ctxErr : Option GoError)
    (hkey : p.config.APIKey = "") (hclient : p.client = none) :
    p.Stream unmarshal now s ctxErr =
      [.sendErr (.wrap "failed to create client" (.msg "API key is required"))] ∧
    sentEvents (p.Stream unmarshal now s ctxErr) = [] ∧
    sentResults (p.Stream unmarshal now s ctxErr) = [] ∧
    (∀ q : Provider,
      (∃ e, q.getClient.1 = .error e) ↔ (q.config.APIKey = "" ∧ q.client = none)) ∧
    (∀ (q : Provider) (c : Client), q.getClient.1 = .ok c →
      ∀ n : Nat, (afterGetClientCalls n q.getClient.2).getClient = (.ok c, q.getClient.2)) ∧
    (∀ (q : Provider) (c : Client), q.getClient.1 = .ok c →
      q.getClient.2.client = some c ∧ q.getClient.2 = { q with client := some c }) ∧
    (∀ (q : Provider) (c : Client), q.client = some c → q.getClient = (.ok c, q)) ∧
    (∀ q : Provider, q.client = none → q.config.APIKey ≠ "" →
      q.getClient.1 =
        .ok { opts := [RequestOption.WithAPIKey q.config.APIKey] ++
                if q.config.URL ≠ "" then [RequestOption.WithBaseURL q.config.URL] else [] }) ∧
    (∀ (q : Provider) (e : GoError), q.getClient.1 = .error e →
      e = .msg "API key is required" ∧ q.getClient.2 = q) := by
  have hs : p.Stream unmarshal now s ctxErr =
      [.sendErr (.wrap "failed to create client" (.msg "API key is required"))] := by
    simp [Provider.Stream, Provider.getClient, hkey, hclient]
  refine ⟨hs, by rw [hs]; rfl, by rw [hs]; rfl, ?_, ?_, ?_, ?_, ?_, ?_⟩
  · intro q
    unfold Provider.getClient
    cases hc : q.client with
    | some c0 => simp
    | none =>
      by_cases hk : q.config.APIKey = ""
      · simp [hk]
      · simp [hk]
  · intro q c hq n
    have hc := getClient_ok_caches q c hq
    rw [afterGetClientCalls_cached n _ c hc]
    exact getClient_cached _ c hc
  · intro q c hq
    exact ⟨getClient_ok_caches q c hq, getClient_ok_stores q c hq⟩
  · intro q c hc
    exact getClient_cached q c hc
  · intro q hc hk
    rw [getClient_creates q hc hk]
  · intro q e he
    cases hc : q.client with
    | some c0 =>
      rw [getClient_cached q c0 hc] at he
      cases he
    | none =>
      by_cases hk : q.config.APIKey = ""
      · have hq : q.getClient = (.error (.msg "API key is required"), q) := by
          simp [Provider.getClient, hc, hk]
        rw [hq] at he ⊢
        injection he with he
        exact ⟨he.symm, rfl⟩
      · rw [getClient_creates q hc hk] at he
        cases he

/-- The run of `emptyKeyProvider` on `helloStream`, which fails; the first call
of `getClient` on `sampleProvider` and on `nvidiaProvider`, which creates and
stores the client, and the calls after it; and the call on `cachedProvider`,
whose stored client is returned although its key is empty. -/
theorem Stream_without_api_key_witness :
    emptyKeyProvider.Stream sampleUnmarshal 0 helloStream none =
      [.sendErr (.wrap "failed to create client" (.msg "API key is required"))] ∧
    sentEvents (emptyKeyProvider.Stream sampleUnmarshal 0 helloStream none) = [] ∧
    sentResults (emptyKeyProvider.Stream sampleUnmarshal 0 helloStream none) = [] ∧
    ((∃ e, emptyKeyProvider.getClient.1 = .error e) ↔
      (emptyKeyProvider.config.APIKey = "" ∧ emptyKeyProvider.client = none)) ∧
    (sampleProvider.getClient.2.client = some sampleClient ∧
      sampleProvider.getClient.2 = { sampleProvider with client := some sampleClient }) ∧
    (afterGetClientCalls 3 sampleProvider.getClient.2).getClient =
      (.ok sampleClient, sampleProvider.getClient.2) ∧
    nvidiaProvider.getClient.1 =
      .ok { opts := [RequestOption.WithAPIKey "nv-key",
                     RequestOption.WithBaseURL "https://integrate.api.nvidia.com/v1"] } ∧
    cachedProvider.getClient = (.ok sampleClient, cachedProvider) ∧
    (emptyKeyProvider.getClient.1 = .error (.msg "API key is required") →
      GoError.msg "API key is required" = .msg "API key is required" ∧
      emptyKeyProvider.getClient.2 = emptyKeyProvider) :=
  have h := Stream_without_api_key sampleUnmarshal 0 emptyKeyProvider helloStream none
    (by decide) (by decide)
  ⟨h.1, h.2.1, h.2.2.1, h.2.2.2.1 emptyKeyProvider,
   h.2.2.2.2.2.1 sampleProvider sampleClient (by rfl),
   h.2.2.2.2.1 sampleProvider sampleClient (by rfl) 3,
   h.2.2.2.2.2.2.2.1 nvidiaProvider (by decide) (by decide),
   h.2.2.2.2.2.2.1 cachedProvider sampleClient (by rfl),
   h.2.2.2.2.2.2.2.2 emptyKeyProvider (.msg "API key is required")⟩

/-! ### `buildAssistantMessage` -/

theorem collectContent_foldl (cs : List Content) :
    ∀ acc : List ChatCompletionMessageToolCallUnionParam ×
        List ChatCompletionAssistantMessageParamContentArrayOfContentPartUnion,
      cs.foldl collectContent acc =
        (acc.1 ++ cs.filterMap toolCallParamOf, acc.2 ++ cs.filterMap textPartOf) := by
  induction cs with
  | nil => intro acc; simp
  | cons c cs ih =>
    intro acc
    rw [List.foldl_cons, ih]
    cases c <;> simp [collectContent, toolCallParamOf, textPartOf, List.filterMap_cons]

/-- The parameter `buildAssistantMessage` returns, written with the lists of
forwarded parts. -/
theorem buildAssistantMessage_eq (msg : AssistantMessage) :
    buildAssistantMessage msg =
      .OfAssistant
        { Content := { OfString := none,
                       OfArrayOfContentParts := msg.Contents.filterMap textPartOf },
          ToolCalls := msg.Contents.filterMap toolCallParamOf } := by
  unfold buildAssistantMessage
  rw [collectContent_foldl]
  simp only [List.nil_append]
  cases h1 : msg.Contents.filterMap textPartOf <;>
    cases h2 : msg.Contents.filterMap toolCallParamOf <;> simp

theorem filterMap_eraseArguments (cs : List Content) :
    (cs.map eraseArguments).filterMap textPartOf = cs.filterMap textPartOf ∧
    (cs.map eraseArguments).filterMap toolCallParamOf = cs.filterMap toolCallParamOf := by
  induction cs with
  | nil => exact ⟨rfl, rfl⟩
  | cons c cs ih =>
    cases c <;>
      simp [eraseArguments, textPartOf, toolCallParamOf, List.filterMap_cons, ih.1, ih.2]

/-- C29: `buildAssistantMessage` returns the assistant parameter whose content
parts are the texts of the `TextContent` items and whose tool calls are the
`ToolCall` items, each list in the order of `Contents`, a tool call forwarded
with its `ID` and `Name` only; so two messages whose contents agree once the
`Arguments` of their tool calls are emptied give the same parameter. -/
theorem buildAssistantMessage_drops_arguments (m1 m2 : AssistantMessage)
    (h : m1.Contents.map eraseArguments = m2.Contents.map eraseArguments) :
    buildAssistantMessage m1 =
      .OfAssistant
        { Content := { OfString := none,
                       OfArrayOfContentParts := m1.Contents.filterMap textPartOf },
          ToolCalls := m1.Contents.filterMap toolCallParamOf } ∧
    buildAssistantMessage m1 = buildAssistantMessage m2 := by
  refine ⟨buildAssistantMessage_eq m1, ?_⟩
  rw [buildAssistantMessage_eq, buildAssistantMessage_eq,
    ← (filterMap_eraseArguments m1.Contents).1, ← (filterMap_eraseArguments m1.Contents).2, h,
    (filterMap_eraseArguments m2.Contents).1, (filterMap_eraseArguments m2.Contents).2]

/-- The parameters built for `weatherMessage` and `weatherMessageOsaka`, which
differ in the arguments of their tool call. -/
theorem buildAssistantMessage_drops_arguments_witness :
    weatherMessage ≠ weatherMessageOsaka ∧
    buildAssistantMessage weatherMessage =
      .OfAssistant
        { Content := { OfString := none,
                       OfArrayOfContentParts :=
                         [.OfText { Text := "Let me check." }, .OfText { Text := "One moment." }] },
          ToolCalls :=
            [.OfFunction { ID := "t1", Function := { Name := "getWeather", Arguments := "" } }] } ∧
    buildAssistantMessage weatherMessage = buildAssistantMessage weatherMessageOsaka :=
  ⟨by decide,
   buildAssistantMessage_drops_arguments weatherMessage weatherMessageOsaka (by decide)⟩

end OpenAI

namespace PkgOpenAI

open PkgTypes
open Types (Arguments GoError ModelProvider StopReason ToolCall Content AssistantMessage)

/-! ### The older implementation: what reaches `Result` and `Err` -/

theorem old_sentResults_append (a b : List ChanOp) :
    sentResults (a ++ b) = sentResults a ++ sentResults b := by
  induction a with
  | nil => rfl
  | cons x xs ih => cases x <;> simp [sentResults, ih]

theorem old_sentErrs_append (a b : List ChanOp) :
    sentErrs (a ++ b) = sentErrs a ++ sentErrs b := by
  induction a with
  | nil => rfl
  | cons x xs ih => cases x <;> simp [sentErrs, ih]

theorem old_sentResults_map (evs : List AssistantMessageEvent) :
    sentResults (evs.map ChanOp.sendEvents) = [] := by
  induction evs with
  | nil => rfl
  | cons x xs ih => simp [sentResults, ih]

theorem old_sentErrs_map (evs : List AssistantMessageEvent) :
    sentErrs (evs.map ChanOp.sendEvents) = [] := by
  induction evs with
  | nil => rfl
  | cons x xs ih => simp [sentErrs, ih]

/-- The loop of the older implementation sends neither on `Result` nor on
`Err`, and it runs to the end exactly when every chunk is accepted. -/
theorem streamLoop_sends (um : String → Option Arguments) (cs : List OpenAI.Chunk) :
    ∀ st : OpenAI.LoopState,
      sentResults (streamLoop um st cs).1 = [] ∧ sentErrs (streamLoop um st cs).1 = [] ∧
      ((streamLoop um st cs).2 = none ↔ ∃ ch ∈ cs, ch.AddChunk = false) := by
  induction cs with
  | nil => intro st; simp [streamLoop, sentResults, sentErrs]
  | cons c cs ih =>
    intro st
    by_cases hc : c.AddChunk = false
    · simp [streamLoop, hc, sentResults, sentErrs]
    · have h := ih (processChunk um st c).1
      simp [streamLoop, hc, old_sentResults_append, old_sentErrs_append, old_sentResults_map, old_sentErrs_map,
        h.1, h.2.1, h.2.2]

/-- C17: in the older `OpenAIProvider.Stream`, a run in which `AddChunk` refuses
a chunk sends nothing on `Result` and nothing on `Err` before the deferred
closes: the `return` of lines 71-74 sends no error. -/
theorem old_Stream_refused_chunk_sends_nothing (unmarshal : String → Option Arguments)
    (now : Nat) (p : OpenAIProvider) (s : OpenAI.ChunkStream) (ctxErr : Option GoError)
    (hrefused : ∃ ch ∈ s.chunks, ch.AddChunk = false) :
    sentResults (p.Stream unmarshal now s ctxErr) = [] ∧
    sentErrs (p.Stream unmarshal now s ctxErr) = [] ∧
    ∃ ops : List ChanOp, p.Stream unmarshal now s ctxErr = ops ++ deferredCloses := by
  have h := streamLoop_sends unmarshal s.chunks (initialState now p)
  have hnone := h.2.2.2 hrefused
  unfold OpenAIProvider.Stream
  simp only [hnone]
  refine ⟨?_, ?_, ⟨_ :: _, rfl⟩⟩
  · simp [sentResults, old_sentResults_append, h.1, deferredCloses]
  · simp [sentErrs, old_sentErrs_append, h.2.1, deferredCloses]

/-- The run of `refusedStream`: one text delta, then a refused chunk. -/
theorem old_Stream_refused_chunk_sends_nothing_witness :
    sentResults (sampleProvider.Stream OpenAI.sampleUnmarshal 0 refusedStream none) = [] ∧
    sentErrs (sampleProvider.Stream OpenAI.sampleUnmarshal 0 refusedStream none) = [] ∧
    ∃ ops : List ChanOp,
      sampleProvider.Stream OpenAI.sampleUnmarshal 0 refusedStream none =
        ops ++ deferredCloses :=
  old_Stream_refused_chunk_sends_nothing OpenAI.sampleUnmarshal 0 sampleProvider refusedStream
    none (by decide)

end PkgOpenAI

namespace ProviderRegistry

open Types

/-! ### `Registry.Get` after a history of `Register` calls -/

theorem registered_append {P : Type} (calls : List (RegisterCall P)) (c : RegisterCall P) :
    registered (calls ++ [c]) =
      ((registered calls).Register c.providerType c.modelID c.provider).2 := by
  simp [registered, List.foldl_append]

/-- What `Register` leaves under a provider type other than its own. -/
theorem Register_models_other {P : Type} (r : Registry P) (pt cpt : ModelProvider)
    (cm : String) (cv : P) (h : pt ≠ cpt) :
    (r.Register cpt cm cv).2.models pt = r.models pt := by
  cases hm : r.models cpt <;> simp [Registry.Register, Registry.register, hm, h]

/-- What `Register` leaves under its own provider type. -/
theorem Register_models_self {P : Type} (r : Registry P) (cpt : ModelProvider)
    (cm : String) (cv : P) :
    (r.Register cpt cm cv).2.models cpt =
      some (fun id => if id = cm then some cv else
        match r.models cpt with
        | some old => old id
        | none => none) := by
  cases hm : r.models cpt <;> simp [Registry.Register, Registry.register, hm]

/-- The outer map has a key exactly for the provider types of the calls. -/
theorem registered_models_none {P : Type} (calls : List (RegisterCall P))
    (pt : ModelProvider) :
    (registered calls).models pt = none ↔ ∀ c ∈ calls, c.providerType ≠ pt := by
  induction calls using List.reverseRecOn with
  | nil => simp [registered, NewRegistry]
  | append_singleton cs c ih =>
    rw [registered_append]
    by_cases h : pt = c.providerType
    · subst h
      rw [Register_models_self]
      constructor
      · intro hh; cases hh
      · intro hh
        exact absurd rfl (hh c (List.mem_append_right _ (List.mem_singleton_self c)))
    · rw [Register_models_other _ _ _ _ _ h, ih]
      constructor
      · intro hh x hx
        rcases List.mem_append.1 hx with hx | hx
        · exact hh x hx
        · rw [List.mem_singleton.1 hx]; exact fun e => h e.symm
      · intro hh x hx
        exact hh x (List.mem_append_left _ hx)

/-- The inner map of a provider type has a model exactly for the calls made
with that provider type and model, and holds a provider passed in one of them. -/
theorem registered_inner {P : Type} (calls : List (RegisterCall P))
    (pt : ModelProvider) (m : String) :
    ∀ inner, (registered calls).models pt = some inner →
      (inner m = none ↔ ∀ c ∈ calls, ¬ (c.providerType = pt ∧ c.modelID = m)) ∧
      (∀ v, inner m = some v →
        ∃ c ∈ calls, c.providerType = pt ∧ c.modelID = m ∧ c.provider = v) := by
  induction calls using List.reverseRecOn with
  | nil => intro inner h; simp [registered, NewRegistry] at h
  | append_singleton cs c ih =>
    intro inner h
    rw [registered_append] at h
    by_cases hpt : pt = c.providerType
    · subst hpt
      rw [Register_models_self] at h
      injection h with h
      subst h
      by_cases hmm : m = c.modelID
      · subst hmm
        simp only [if_true]
        refine ⟨?_, ?_⟩
        · constructor
          · intro hh; cases hh
          · intro hh
            exact absurd ⟨rfl, rfl⟩ (hh c (List.mem_append_right _ (List.mem_singleton_self c)))
        · intro v hv
          injection hv with hv
          exact ⟨c, List.mem_append_right _ (List.mem_singleton_self c), rfl, rfl, hv⟩
      · simp only [hmm, if_false]
        cases hm : (registered cs).models c.providerType with
        | none =>
          have hnone := (registered_models_none cs c.providerType).1 hm
          refine ⟨?_, ?_⟩
          · simp only [true_iff]
            intro x hx hh
            rcases List.mem_append.1 hx with hx | hx
            · exact hnone x hx hh.1
            · rw [List.mem_singleton.1 hx] at hh; exact hmm hh.2.symm
          · intro v hv; cases hv
        | some old =>
          have hold := ih old hm
          refine ⟨?_, ?_⟩
          · show old m = none ↔ _
            rw [hold.1]
            constructor
            · intro hh x hx
              rcases List.mem_append.1 hx with hx | hx
              · exact hh x hx
              · rw [List.mem_singleton.1 hx]; exact fun hh2 => hmm hh2.2.symm
            · intro hh x hx
              exact hh x (List.mem_append_left _ hx)
          · intro v hv
            obtain ⟨x, hx, hx2⟩ := hold.2 v hv
            exact ⟨x, List.mem_append_left _ hx, hx2⟩
    · rw [Register_models_other _ _ _ _ _ hpt] at h
      have hold := ih inner h
      refine ⟨?_, ?_⟩
      · rw [hold.1]
        constructor
        · intro hh x hx
          rcases List.mem_append.1 hx with hx | hx
          · exact hh x hx
          · rw [List.mem_singleton.1 hx]; exact fun hh2 => hpt hh2.1.symm
        · intro hh x hx
          exact hh x (List.mem_append_left _ hx)
      · intro v hv
        obtain ⟨x, hx, hx2⟩ := hold.2 v hv
        exact ⟨x, List.mem_append_left _ hx, hx2⟩

theorem wrapHead_Is_self (e : GoError) (text : String) :
    (GoError.wrapHead e text).Is e = true := by
  cases e <;> simp [GoError.Is]

/-- C18: on a registry built by `Register` calls, `Registry.Get` returns an
error wrapping `ErrProviderNotFound` exactly when no call was made with the
provider type, an error wrapping `ErrModelNotFound` exactly when calls were made
with the provider type but none with the model, and otherwise, with no error, a
provider that was registered under the provider type and model. -/
theorem Get_after_Register_calls {P : Type} (calls : List (RegisterCall P))
    (pt : ModelProvider) (m : String) :
    ((∃ e, (registered calls).Get pt m = .error e ∧ e.Is ErrProviderNotFound = true) ↔
      ∀ c ∈ calls, c.providerType ≠ pt) ∧
    ((∃ e, (registered calls).Get pt m = .error e ∧ e.Is ErrModelNotFound = true) ↔
      (∃ c ∈ calls, c.providerType = pt) ∧
        ∀ c ∈ calls, ¬ (c.providerType = pt ∧ c.modelID = m)) ∧
    ((∃ v, (registered calls).Get pt m = .ok v) ↔
      ∃ c ∈ calls, c.providerType = pt ∧ c.modelID = m) ∧
    (∀ v, (registered calls).Get pt m = .ok v →
      ∃ c ∈ calls, c.providerType = pt ∧ c.modelID = m ∧ c.provider = v) := by
  have hnone := registered_models_none calls pt
  have hne1 : ∀ text, GoError.Is (.wrapHead ErrProviderNotFound text) ErrModelNotFound = false := by
    intro text; simp [GoError.Is, ErrProviderNotFound, ErrModelNotFound]
  have hne2 : ∀ text, GoError.Is (.wrapHead ErrModelNotFound text) ErrProviderNotFound = false := by
    intro text; simp [GoError.Is, ErrProviderNotFound, ErrModelNotFound]
  cases hm : (registered calls).models pt with
  | none =>
    have hall := hnone.1 hm
    have hget : (registered calls).Get pt m =
        .error (.wrapHead ErrProviderNotFound ("provider " ++ pt)) := by
      simp [Registry.Get, hm]
    rw [hget]
    refine ⟨?_, ?_, ?_, ?_⟩
    · exact ⟨fun _ => hall, fun _ => ⟨_, rfl, wrapHead_Is_self _ _⟩⟩
    · constructor
      · rintro ⟨e, he, hIs⟩
        injection he with he
        subst he
        rw [hne1] at hIs; cases hIs
      · rintro ⟨⟨c, hc, hpt⟩, _⟩
        exact absurd hpt (hall c hc)
    · constructor
      · rintro ⟨v, hv⟩; cases hv
      · rintro ⟨c, hc, hpt, _⟩
        exact absurd hpt (hall c hc)
    · intro v hv; cases hv
  | some inner =>
    have hsome : ¬ ∀ c ∈ calls, c.providerType ≠ pt := fun hh => by
      rw [hnone.2 hh] at hm; cases hm
    have hex : ∃ c ∈ calls, c.providerType = pt := by
      by_contra hcon
      exact hsome (fun c hc hpt => hcon ⟨c, hc, hpt⟩)
    have hin := registered_inner calls pt m inner hm
    cases hi : inner m with
    | none =>
      have hget : (registered calls).Get pt m =
          .error (.wrapHead ErrModelNotFound ("model " ++ m)) := by
        simp [Registry.Get, hm, hi]
      have hno := hin.1.1 hi
      rw [hget]
      refine ⟨?_, ?_, ?_, ?_⟩
      · constructor
        · rintro ⟨e, he, hIs⟩
          injection he with he
          subst he
          rw [hne2] at hIs; cases hIs
        · intro hh; exact absurd hh hsome
      · exact ⟨fun _ => ⟨hex, hno⟩, fun _ => ⟨_, rfl, wrapHead_Is_self _ _⟩⟩
      · constructor
        · rintro ⟨v, hv⟩; cases hv
        · rintro ⟨c, hc, hh⟩
          exact absurd hh (hno c hc)
      · intro v hv; cases hv
    | some v0 =>
      have hget : (registered calls).Get pt m = .ok v0 := by
        simp [Registry.Get, hm, hi]
      obtain ⟨c0, hc0, h1, h2, h3⟩ := hin.2 v0 hi
      rw [hget]
      refine ⟨?_, ?_, ?_, ?_⟩
      · constructor
        · rintro ⟨e, he, _⟩; cases he
        · intro hh; exact absurd hh hsome
      · constructor
        · rintro ⟨e, he, _⟩; cases he
        · rintro ⟨_, hh⟩
          exact absurd ⟨h1, h2⟩ (hh c0 hc0)
      · exact ⟨fun _ => ⟨c0, hc0, h1, h2⟩, fun _ => ⟨v0, rfl⟩⟩
      · intro v hv
        injection hv with hv
        subst hv
        exact ⟨c0, hc0, h1, h2, h3⟩

/-! ### `Register` followed by `Get` -/

/-- C30, as stated, fails: on a new registry `Get` for ("openai", "gpt-4o")
returns the error that wraps `ErrProviderNotFound`; after
`Register("openai", "gpt-4o-mini", v)` the same `Get`, for another model of the
same provider type, returns the error that wraps `ErrModelNotFound`. -/
theorem Get_other_model_changes_on_first_Register :
    (NewRegistry : Registry OpenAI.Provider).Get "openai" "gpt-4o" =
      .error (.wrapHead ErrProviderNotFound "provider openai") ∧
    ((NewRegistry : Registry OpenAI.Provider).Register "openai" "gpt-4o-mini" sampleValue).2.Get
        "openai" "gpt-4o" =
      .error (.wrapHead ErrModelNotFound "model gpt-4o") ∧
    GoError.wrapHead ErrProviderNotFound "provider openai" ≠
      GoError.wrapHead ErrModelNotFound "model gpt-4o" := by
  refine ⟨?_, ?_, by decide⟩
  · simp [Registry.Get, NewRegistry]
  · simp [Registry.Get, Registry.Register, Registry.register, NewRegistry]

/-- C30, amended: `Register` returns no error; after `Register(p, m, v)` on any
registry `Get(p, m)` returns `v` with no error; `Get` for a key with another
provider type returns what it returned before; `Get(p, m')` for another model
`m'` returns what it returned before when the registry already had an entry for
`p`, and otherwise the error that wrapped `ErrProviderNotFound` before wraps
`ErrModelNotFound` now. -/
theorem Register_then_Get {P : Type} (r : Registry P) (pt : ModelProvider) (m : String)
    (v : P) :
    (r.Register pt m v).1 = none ∧
    (r.Register pt m v).2.Get pt m = .ok v ∧
    (∀ (pt2 : ModelProvider) (m2 : String), pt2 ≠ pt →
      (r.Register pt m v).2.Get pt2 m2 = r.Get pt2 m2) ∧
    (∀ m2 : String, m2 ≠ m → r.models pt ≠ none →
      (r.Register pt m v).2.Get pt m2 = r.Get pt m2) ∧
    (∀ m2 : String, m2 ≠ m → r.models pt = none →
      r.Get pt m2 = .error (.wrapHead ErrProviderNotFound ("provider " ++ pt)) ∧
      (r.Register pt m v).2.Get pt m2 =
        .error (.wrapHead ErrModelNotFound ("model " ++ m2))) := by
  refine ⟨rfl, ?_, ?_, ?_, ?_⟩
  · simp [Registry.Get, Register_models_self]
  · intro pt2 m2 h
    simp [Registry.Get, Register_models_other r pt2 pt m v h]
  · intro m2 h hsome
    cases hm : r.models pt with
    | none => exact absurd hm hsome
    | some old => simp [Registry.Get, Register_models_self, hm, h]
  · intro m2 h hnone
    simp [Registry.Get, Register_models_self, hnone, h]

end ProviderRegistry
